import Mathlib

/-!
# linuxkit `run packet`: a verification development

Shallow embedding of `src/cmd/linuxkit/run_packet.go`.

Go strings are byte sequences; they are modelled as `List Char`, one `Char` per byte.
Nothing below inspects a byte other than by comparing it with `'/'`, `'.'`, `' '`,
a newline or a carriage return.
Paths follow the Unix build of the Go library: `filepath.Separator` is `'/'`,
`filepath.FromSlash` is the identity and `filepath.Clean` runs the algorithm of `path.Clean`.
-/

set_option autoImplicit false

namespace RunPacket

/-- A Go string, byte by byte. -/
abbrev Str := List Char

/-! # The embedding -/

/-! ## `path.Clean` and `filepath.Join` (Go standard library, Unix) -/

/-- The inner loop of the `..` case of `path.Clean`:
`for out.w > dotdot && out.index(out.w) != '/' { out.w-- }`, started at `w`;
the result is the final `out.w`. -/
def backtrackW (out : Str) (dotdot : Nat) : Nat → Nat
  | 0 => 0
  | w + 1 =>
    if w + 1 > dotdot ∧ out.getD (w + 1) '/' ≠ '/' then backtrackW out dotdot w else w + 1

/-- The `can backtrack` branch of `path.Clean`: `out.w--`, then the inner loop; the buffer is
cut at the final `out.w`. -/
def backtrack (out : Str) (dotdot : Nat) : Str :=
  out.take (backtrackW out dotdot (out.length - 1))

/-- The main loop `for r < n` of `path.Clean`. `rest` is `path[r:]`, `out` the bytes written
so far (`out.w` is its length). Every iteration consumes at least one byte, so a fuel of
`len(path)` is never exhausted. -/
def cleanLoop (rooted : Bool) : Nat → Str → Str → Nat → Str
  | 0, _, out, _ => out
  | _ + 1, [], out, _ => out
  | fuel + 1, c :: rest, out, dotdot =>
    if c = '/' then
      -- empty path element
      cleanLoop rooted fuel rest out dotdot
    else if c = '.' ∧ (rest = [] ∨ rest.head? = some '/') then
      -- . element
      cleanLoop rooted fuel rest out dotdot
    else if c = '.' ∧ rest.head? = some '.' ∧
        (rest.tail = [] ∨ rest.tail.head? = some '/') then
      -- .. element: remove to last /
      if out.length > dotdot then
        cleanLoop rooted fuel rest.tail (backtrack out dotdot) dotdot
      else if rooted = false then
        let out1 := (if out.length > 0 then out ++ ['/'] else out) ++ ['.', '.']
        cleanLoop rooted fuel rest.tail out1 out1.length
      else
        cleanLoop rooted fuel rest.tail out dotdot
    else
      -- real path element: add slash if needed, copy element
      let out1 :=
        if (rooted = true ∧ out.length ≠ 1) ∨ (rooted = false ∧ out.length ≠ 0)
        then out ++ ['/'] else out
      cleanLoop rooted fuel ((c :: rest).dropWhile (fun x => x != '/'))
        (out1 ++ (c :: rest).takeWhile (fun x => x != '/')) dotdot

/-- Go `path.Clean`. -/
def pathClean (path : Str) : Str :=
  if path = [] then ['.']
  else
    let rooted : Bool := path.head? = some '/'
    let out :=
      if rooted then cleanLoop true path.length (path.drop 1) ['/'] 1
      else cleanLoop false path.length path [] 0
    if out.length = 0 then ['.'] else out

/-- Go `filepath.Clean` on Unix: the algorithm of `path.Clean` (no volume name, and
`FromSlash` is the identity). -/
def filepathClean (path : Str) : Str := pathClean path

/-- Go `filepath.FromSlash` on Unix: the separator is already `'/'`. -/
def filepathFromSlash (path : Str) : Str := path

/-- Go `filepath.Join` for two elements (Unix): the elements from the first non-empty one on
are joined with `'/'` and cleaned; all empty gives `""`. -/
def filepathJoin (a b : Str) : Str :=
  if a ≠ [] then filepathClean (a ++ '/' :: b)
  else if b ≠ [] then filepathClean b
  else []

/-! ## `serveFiles` -/

/-- The allow-list file system of the HTTP server. -/
structure serveFiles where
  files : List Str
deriving DecidableEq, Repr

/-- What `serveFiles.Open` returns. -/
inductive OpenResult (File Err : Type) where
  /-- `os.Getwd` failed; its error is returned. -/
  | getwdError (e : Err)
  /-- `os.Open fn` succeeded. -/
  | file (fn : Str) (f : File)
  /-- `os.Open fn` failed; its error is returned. -/
  | openError (fn : Str) (e : Err)
  /-- The error `File <name> not found`. -/
  | notFound (name : Str)
deriving DecidableEq, Repr

/-- The loop `for _, fn := range fs.files` of `serveFiles.Open`; `name` is already
normalised. The first component lists the paths handed to `os.Open`. -/
def openLoop {File Err : Type} (osOpen : Str → Except Err File) (cwd name : Str) :
    List Str → List Str × OpenResult File Err
  | [] => ([], .notFound name)
  | fn :: fns =>
    let fn1 := filepathJoin cwd (filepathFromSlash (pathClean ('/' :: fn)))
    if name = fn1 then
      match osOpen fn1 with
      | .error e => ([fn1], .openError fn1 e)
      | .ok f => ([fn1], .file fn1 f)
    else openLoop osOpen cwd name fns

/-- The method `serveFiles.Open`. `getwd` is the result of `os.Getwd`, `osOpen` the file
system seen through `os.Open`. Returns the paths handed to `os.Open` and the result. -/
def serveFiles.Open {File Err : Type} (fs : serveFiles) (getwd : Except Err Str)
    (osOpen : Str → Except Err File) (name : Str) : List Str × OpenResult File Err :=
  match getwd with
  | .error e => ([], .getwdError e)
  | .ok cwd =>
    let name1 := filepathJoin cwd (filepathFromSlash (pathClean ('/' :: name)))
    openLoop osOpen cwd name1 fs.files

/-! ## `sshHostKey` -/

/-- Go `strings.Split(s, " ")`: `s` cut at every single space; `n` spaces give `n + 1`
fields, empty ones included. -/
def stringsSplitSpace : Str → List Str
  | [] => [[]]
  | c :: cs =>
    if c = ' ' then [] :: stringsSplitSpace cs
    else (c :: (stringsSplitSpace cs).headD []) :: (stringsSplitSpace cs).tail

/-- Go `strings.Contains(s, substr)`. -/
def stringsContains (s substr : Str) : Bool := decide (substr <:+: s)

/-- The errors of `sshHostKey`. -/
inductive HostKeyError (Err : Type) where
  /-- `Cannot open know_hosts file`. -/
  | cantOpen (e : Err)
  /-- `Error parsing <fields[2]>`. -/
  | parsing (field : Str) (e : Err)
  /-- `No hostkey for <host>`. -/
  | noHostKey (host : Str)
deriving DecidableEq, Repr

/-- The loop `for s.Scan()` of `sshHostKey` over the lines the scanner yields; the result is
`hostKey` after the loop (`none` is Go `nil`) or the error returned from inside the loop. -/
def hostKeyLoop {Key Err : Type} (parseAuthorizedKey : Str → Except Err Key) (host : Str) :
    List Str → Except (HostKeyError Err) (Option Key)
  | [] => .ok none
  | line :: rest =>
    let fields := stringsSplitSpace line
    if fields.length ≠ 3 then hostKeyLoop parseAuthorizedKey host rest
    else if stringsContains (fields.getD 0 []) host then
      match parseAuthorizedKey line with
      | .error e => .error (.parsing (fields.getD 2 []) e)
      | .ok k => .ok (some k)
    else hostKeyLoop parseAuthorizedKey host rest

/-- Go `bufio.MaxScanTokenSize`, the buffer limit of a scanner made by `bufio.NewScanner`. -/
def maxScanTokenSize : Nat := 64 * 1024

/-- Go `dropCR` of package `bufio`: a trailing `'\r'` is removed. -/
def dropCR (data : Str) : Str :=
  if data.getLast? = some '\r' then data.dropLast else data

/-- The tokens that `s.Scan()` yields on a file, for the scanner of `bufio.NewScanner`
(`bufio.ScanLines`, buffer limit `maxScanTokenSize`), until `Scan` first returns false.
`cur` is the unread data held in the buffer, which has no newline, and the second argument
is what is left of the file. A newline ends a token; at the end of the file the data left
is a last token; and once the buffer is full without a newline `Scan` sets `ErrTooLong`
and returns false. -/
def scanAux : Str → Str → List Str
  | cur, [] => if cur = [] then [] else [dropCR cur]
  | cur, c :: cs =>
    if c = '\n' then dropCR cur :: scanAux [] cs
    else if cur.length + 1 ≥ maxScanTokenSize then []
    else scanAux (cur ++ [c]) cs

/-- The lines that the loop `for s.Scan()` sees for a file with this content. -/
def scanLines (content : Str) : List Str := scanAux [] content

/-- The function `sshHostKey`. `knownHosts` is the result of opening `~/.ssh/known_hosts`:
the content of the file, or the error of `os.Open`. The error of the scanner (`s.Err()`) is
never read, so a scan that stops early is a scan that has ended. -/
def sshHostKey {Key Err : Type} (knownHosts : Except Err Str)
    (parseAuthorizedKey : Str → Except Err Key) (host : Str) :
    Except (HostKeyError Err) Key :=
  match knownHosts with
  | .error e => .error (.cantOpen e)
  | .ok content =>
    match hostKeyLoop parseAuthorizedKey host (scanLines content) with
    | .error e => .error e
    | .ok none => .error (.noHostKey host)
    | .ok (some k) => .ok k

/-! ## `runPacket` -/

/-- The request `packngo.DeviceCreateRequest`, with the fields that `runPacket` sets. -/
structure DeviceCreateRequest where
  hostName : Str
  plan : Str
  facility : Str
  os : Str
  billingCycle : Str
  projectID : Str
  userData : Str
  tags : List Str
  alwaysPXE : Bool
deriving DecidableEq, Repr

/-- What the run does to the outside, in order. -/
inductive Event where
  /-- The goroutine `httpServer.ListenAndServe()` is started for a server with this address
  and file system. -/
  | listen (addr : Str) (fs : serveFiles)
  /-- The request `http.Head(url)`. -/
  | head (url : Str)
  /-- The call `client.Devices.Create(&req)`. -/
  | create (req : DeviceCreateRequest)
  /-- The call `ssh.Dial("tcp", addr, sshConfig)` for `sshConfig.User = user`. -/
  | sshDial (addr user : Str)
  /-- The call `s.RequestPty("vt100", width, height, modes)`. -/
  | requestPty (width height : Nat)
  /-- The deferred `terminal.Restore(0, oldState)`. -/
  | terminalRestore
  /-- The deferred `s.Close()`. -/
  | sessionClose
  /-- The receive `<-stop` after `signal.Notify(stop, os.Interrupt)`. -/
  | waitInterrupt
  /-- The call `httpServer.Shutdown(ctx)`. -/
  | shutdown
  /-- The call `client.Devices.Delete(id)`. -/
  | delete (id : Str)
deriving DecidableEq, Repr

/-- The device that `client.Devices.Create` returns: `dev.ID` and `dev.Facility.Code`
(the response is taken to carry its facility). -/
structure Device where
  id : Str
  facilityCode : Str
deriving DecidableEq, Repr

/-- The answer to `http.Head`. -/
inductive HeadResult where
  /-- The request failed (`err != nil`). -/
  | transportError
  /-- A response with `resp.StatusCode = code`. -/
  | status (code : Nat)
deriving DecidableEq, Repr

/-- The calls that end the process (`log.Fatal`, `log.Fatalf`). -/
inductive Fatal where
  | parseArgs
  | noBaseURL
  | noAPIKey
  | noProjectID
  | keepConsole
  | cmdline
  | head
  | headStatus
  | create
  | marshal
  | console
  | sshAgent
  | delete
deriving DecidableEq, Repr

/-- How a run ends: `runPacket` returns, the process is ended by a fatal log call, or the
run waits forever (for the interrupt, or for the remote shell). -/
inductive Outcome where
  | returned
  | fatal (f : Fatal)
  | blocked
deriving DecidableEq, Repr

/-- The errors that `sshSOS` returns. -/
inductive SOSError where
  | hostKey (e : HostKeyError Str)
  | dial
  | session
  | pty
  | makeRaw
  | shell
deriving DecidableEq, Repr

/-- How `sshSOS` ends: it returns `err` (`none` is `nil`), the process is ended inside it by
`sshAgent`, or `s.Wait()` never returns. -/
inductive SOSResult where
  | returned (err : Option SOSError)
  | fatal
  | blocked
deriving DecidableEq, Repr

/-- The flags after `flags.Parse(args)`, with `flags.Args()`. -/
structure Flags where
  baseURLFlag : Str
  zoneFlag : Str
  machineFlag : Str
  apiKeyFlag : Str
  projectFlag : Str
  hostNameFlag : Str
  nameFlag : Str
  alwaysPXE : Bool
  serveFlag : Str
  consoleFlag : Bool
  keepFlag : Bool
  remArgs : List Str
deriving DecidableEq, Repr

/-- The outside world of a run. -/
structure Env where
  /-- The outcome of `flags.Parse(args)` on a flag set with `flag.ExitOnError`: the flag
  values, or `none` when parsing ends the process. -/
  parse : List Str → Option Flags
  /-- The helper `getStringValue(envKey, flagVal, defaultVal)` of the package, which is
  defined in another file and reads the process environment. -/
  getStringValue : Str → Str → Str → Str
  /-- The package constant `defaultMachine`, which is defined in another file. -/
  defaultMachine : Str
  /-- The result of `ioutil.ReadFile`: the content, or `none` for an error. -/
  readFile : Str → Option Str
  /-- The answer to `http.Head(url)`. -/
  httpHead : Str → HeadResult
  /-- The result of `client.Devices.Create(&req)`: the device, or `none` for an error. -/
  devicesCreate : DeviceCreateRequest → Option Device
  /-- Whether `json.MarshalIndent(dev, ...)` succeeds. -/
  marshalIndent : Device → Bool
  /-- The result of opening `~/.ssh/known_hosts`: its content, or the error of `os.Open`. -/
  knownHosts : Except Str Str
  /-- The result of `ssh.ParseAuthorizedKey` on a line. -/
  parseAuthorizedKey : Str → Except Str Str
  /-- Whether `net.Dial("unix", SSH_AUTH_SOCK)` succeeds. -/
  agentDial : Bool
  /-- Whether `ssh.Dial("tcp", addr, sshConfig)` succeeds, for the user and host key of
  `sshConfig`. -/
  sshDial : Str → Str → Str → Bool
  /-- Whether `c.NewSession()` succeeds. -/
  newSession : Bool
  /-- The result of `terminal.GetSize(0)`: width and height, or `none` for an error. -/
  getSize : Option (Nat × Nat)
  /-- Whether `s.RequestPty("vt100", width, height, modes)` succeeds. -/
  requestPty : Nat → Nat → Bool
  /-- Whether `terminal.MakeRaw` succeeds. -/
  makeRaw : Bool
  /-- Whether `s.Shell()` succeeds. -/
  shell : Bool
  /-- Whether `s.Wait()` returns, that is, the remote shell exits. -/
  waitReturns : Bool
  /-- Whether the interrupt signal arrives on `stop`. -/
  interrupt : Bool
  /-- Whether `client.Devices.Delete(id)` succeeds. -/
  devicesDelete : Str → Bool

def packetBaseURL : Str := "PACKET_BASE_URL".toList

def packetZoneVar : Str := "PACKET_ZONE".toList

def packetMachineVar : Str := "PACKET_MACHINE".toList

def packetAPIKeyVar : Str := "PACKET_API_KEY".toList

def packetProjectIDVar : Str := "PACKET_PROJECT_ID".toList

def packetHostnameVar : Str := "PACKET_HOSTNAME".toList

def packetNameVar : Str := "PACKET_NAME".toList

/-- The function `validateHTTPURL`: the request it issues, and the fatal call that ends the
process, if any. -/
def validateHTTPURL (env : Env) (url : Str) : List Event × Option Fatal :=
  match env.httpHead url with
  | .transportError => ([.head url], some .head)
  | .status code =>
    if code ≥ 400 then ([.head url], some .headStatus) else ([.head url], none)

/-- The function `sshSOS`: what it does and how it ends. Deferred calls run, last
registered first, whenever the function returns. -/
def sshSOS (env : Env) (user host : Str) : List Event × SOSResult :=
  match sshHostKey env.knownHosts env.parseAuthorizedKey host with
  | .error e => ([], .returned (some (.hostKey e)))
  | .ok hostKey =>
    -- `sshAgent()` is evaluated while `sshConfig` is built
    if env.agentDial = false then ([], .fatal)
    else
      let addr := host ++ ":22".toList
      if env.sshDial addr user hostKey = false then
        ([.sshDial addr user], .returned (some .dial))
      else if env.newSession = false then
        ([.sshDial addr user], .returned (some .session))
      else
        let size := match env.getSize with
          | none => (80, 40)
          | some wh => wh
        if env.requestPty size.1 size.2 = false then
          ([.sshDial addr user, .requestPty size.1 size.2, .sessionClose],
            .returned (some .pty))
        else if env.makeRaw = false then
          ([.sshDial addr user, .requestPty size.1 size.2, .sessionClose],
            .returned (some .makeRaw))
        else if env.shell = false then
          ([.sshDial addr user, .requestPty size.1 size.2, .terminalRestore, .sessionClose],
            .returned (some .shell))
        else if env.waitReturns = false then
          ([.sshDial addr user, .requestPty size.1 size.2], .blocked)
        else
          ([.sshDial addr user, .requestPty size.1 size.2, .terminalRestore, .sessionClose],
            .returned none)

/-- The settings of a run once the flags, the environment and the command-line file are
read (the local variables of `runPacket` at line 110). -/
structure Settings where
  namePrefix : Str
  url : Str
  facility : Str
  plan : Str
  apiKey : Str
  projectID : Str
  hostname : Str
  name : Str
  alwaysPXE : Bool
  serveFlag : Str
  consoleFlag : Bool
  keepFlag : Bool
  cmdline : Str
deriving DecidableEq, Repr

/-- Lines 52 to 109 of `runPacket`: flags, environment, mandatory values, the check of
`keep` against `console`, and the command-line file. No event happens here. -/
def resolve (env : Env) (args : List Str) : Except Fatal Settings :=
  match env.parse args with
  | none => .error .parseArgs
  | some fl =>
    let namePrefix := if fl.remArgs.length > 0 then fl.remArgs.headD [] else "packet".toList
    let url := env.getStringValue packetBaseURL fl.baseURLFlag []
    if url = [] then .error .noBaseURL
    else
      let facility := env.getStringValue packetZoneVar fl.zoneFlag []
      let plan := env.getStringValue packetMachineVar fl.machineFlag env.defaultMachine
      let apiKey := env.getStringValue packetAPIKeyVar fl.apiKeyFlag []
      if apiKey = [] then .error .noAPIKey
      else
        let projectID := env.getStringValue packetProjectIDVar fl.projectFlag []
        if projectID = [] then .error .noProjectID
        else
          let hostname := env.getStringValue packetHostnameVar fl.hostNameFlag []
          let name := env.getStringValue packetNameVar fl.nameFlag namePrefix
          if fl.keepFlag = false ∧ fl.consoleFlag = false then .error .keepConsole
          else
            match env.readFile (namePrefix ++ "-cmdline".toList) with
            | none => .error .cmdline
            | some c =>
              .ok { namePrefix := namePrefix, url := url, facility := facility, plan := plan,
                    apiKey := apiKey, projectID := projectID, hostname := hostname,
                    name := name, alwaysPXE := fl.alwaysPXE, serveFlag := fl.serveFlag,
                    consoleFlag := fl.consoleFlag, keepFlag := fl.keepFlag, cmdline := c }

/-- Lines 128 to 134 of `runPacket`: the iPXE script. -/
def userData (url cmdline name : Str) : Str :=
  let userData := "#!ipxe\n\n".toList
  let userData := userData ++ "dhcp\n".toList
  let userData := userData ++ ("set base-url ".toList ++ url ++ "\n".toList)
  let userData := userData ++
    ("set kernel-params ip=dhcp nomodeset ro serial console=ttyS1,115200 ".toList
      ++ cmdline ++ "\n".toList)
  let userData := userData ++
    ("kernel $\x7bbase-url\x7d/".toList ++ name ++ "-kernel $\x7bkernel-params\x7d\n".toList)
  let userData := userData ++
    ("initrd $\x7bbase-url\x7d/".toList ++ name ++ "-initrd.img\n".toList)
  userData ++ "boot".toList

/-- Line 138: `initrdURL`. -/
def initrdURL (url name : Str) : Str := url ++ "/".toList ++ name ++ "-initrd.img".toList

/-- Line 139: `kernelURL`. -/
def kernelURL (url name : Str) : Str := url ++ "/".toList ++ name ++ "-kernel".toList

/-- Lines 111 to 122: the local HTTP server, when `serve` is set. -/
def serveEvents (s : Settings) : List Event :=
  if s.serveFlag ≠ [] then
    [.listen ":8080".toList
      ⟨[s.name ++ "-kernel".toList, s.name ++ "-initrd.img".toList]⟩]
  else []

/-- Lines 145 to 155: the request `req`. -/
def createRequest (s : Settings) : DeviceCreateRequest :=
  { hostName := s.hostname, plan := s.plan, facility := s.facility,
    os := "custom_ipxe".toList, billingCycle := "hourly".toList, projectID := s.projectID,
    userData := userData s.url s.cmdline s.name, tags := [], alwaysPXE := s.alwaysPXE }

/-- Lines 187 to 199 of `runPacket`: stop the HTTP server, delete the device. -/
def cleanup (env : Env) (s : Settings) (dev : Device) : List Event × Outcome :=
  let t := if s.serveFlag ≠ [] then [Event.shutdown] else []
  if s.keepFlag = false then
    if env.devicesDelete dev.id = false then (t ++ [.delete dev.id], .fatal .delete)
    else (t ++ [.delete dev.id], .returned)
  else (t, .returned)

/-- Line 167: `sshHost`. -/
def sshHost (dev : Device) : Str := "sos.".toList ++ dev.facilityCode ++ ".packet.net".toList

/-- Lines 168 to 199 of `runPacket`: the console or the wait, then the cleanup. -/
def afterCreate (env : Env) (s : Settings) (dev : Device) : List Event × Outcome :=
  if s.consoleFlag then
    match sshSOS env dev.id (sshHost dev) with
    | (t, .returned (some _)) => (t, .fatal .console)
    | (t, .fatal) => (t, .fatal .sshAgent)
    | (t, .blocked) => (t, .blocked)
    | (t, .returned none) => (t ++ (cleanup env s dev).1, (cleanup env s dev).2)
  else if s.serveFlag ≠ [] then
    if env.interrupt = false then ([.waitInterrupt], .blocked)
    else (.waitInterrupt :: (cleanup env s dev).1, (cleanup env s dev).2)
  else cleanup env s dev

/-- Lines 111 to 199 of `runPacket`. -/
def provision (env : Env) (s : Settings) : List Event × Outcome :=
  let t0 := serveEvents s
  match validateHTTPURL env (kernelURL s.url s.name) with
  | (t1, some f) => (t0 ++ t1, .fatal f)
  | (t1, none) =>
    match validateHTTPURL env (initrdURL s.url s.name) with
    | (t2, some f) => (t0 ++ t1 ++ t2, .fatal f)
    | (t2, none) =>
      match env.devicesCreate (createRequest s) with
      | none => (t0 ++ t1 ++ t2 ++ [.create (createRequest s)], .fatal .create)
      | some dev =>
        if env.marshalIndent dev = false then
          (t0 ++ t1 ++ t2 ++ [.create (createRequest s)], .fatal .marshal)
        else
          (t0 ++ t1 ++ t2 ++ [.create (createRequest s)] ++ (afterCreate env s dev).1,
            (afterCreate env s dev).2)

/-- The function `runPacket`: the events of the run, in order, and how it ends. -/
def runPacket (env : Env) (args : List Str) : List Event × Outcome :=
  match resolve env args with
  | .error f => ([], .fatal f)
  | .ok s => provision env s

/-! ## The vocabulary of the properties -/

/-- A path cut at every `'/'`; `"/a//b"` gives `["", "a", "", "b"]`. -/
def splitSlash : Str → List Str
  | [] => [[]]
  | c :: cs =>
    if c = '/' then [] :: splitSlash cs
    else (c :: (splitSlash cs).headD []) :: (splitSlash cs).tail

/-- The non-empty components of a path. -/
def components (p : Str) : List Str := (splitSlash p).filter (fun c => c ≠ [])

/-- A real path element: not empty, without `'/'`, neither `.` nor `..`. -/
def Normal (c : Str) : Prop := c ≠ [] ∧ '/' ∉ c ∧ c ≠ ['.'] ∧ c ≠ ['.', '.']

/-- The element stack of `path.Clean`, top first, written out with a `'/'` before each
element. -/
def slashedR : List Str → Str
  | [] => []
  | c :: rs => slashedR rs ++ '/' :: c

/-- The output buffer of `path.Clean` that holds the element stack `rs` (top first). -/
def renderR (rooted : Bool) (rs : List Str) : Str :=
  if rooted then (if rs = [] then ['/'] else slashedR rs) else (slashedR rs).drop 1

/-- The effect of one path element on the element stack (top first). -/
def stepR (rooted : Bool) (rs : List Str) (comp : Str) : List Str :=
  if comp = [] ∨ comp = ['.'] then rs
  else if comp = ['.', '.'] then
    match rs with
    | [] => if rooted then [] else [comp]
    | top :: rest => if top = ['.', '.'] then comp :: rs else rest
  else comp :: rs

/-- The element stack after a whole path. -/
def procR (rooted : Bool) (rs : List Str) (comps : List Str) : List Str :=
  comps.foldl (stepR rooted) rs

/-- The value of `dotdot` in `path.Clean` when the stack starts with `k` elements `..`. -/
def dotdotIndex (rooted : Bool) (k : Nat) : Nat :=
  if rooted then 1 else 3 * k - 1

/-- The stack of `k` elements `..`. -/
def dots (k : Nat) : List Str := List.replicate k ['.', '.']

/-- What the element stack of `path.Clean` looks like: real elements above a run of `..`,
which is empty for a rooted path. -/
def Stack (rooted : Bool) (rs : List Str) : Prop :=
  ∃ ns k, rs = ns ++ dots k ∧ (∀ c ∈ ns, Normal c) ∧ (rooted = true → k = 0)

/-- `path.Clean` turns the empty result into `"."`. -/
def dotIfEmpty (out : Str) : Str := if out.length = 0 then ['.'] else out

/-- The element stack of `path.Clean("/" + name)`. -/
def cleanStack (name : Str) : List Str := procR true [] (splitSlash name)

/-- Whether joining to `cwd` gives a rooted path. -/
def cwdRooted (cwd : Str) : Bool := decide (cwd = [] ∨ cwd.head? = some '/')

/-- The element stack of the directory `cwd`. -/
def cwdStack (cwd : Str) : List Str := procR (cwdRooted cwd) [] (splitSlash cwd)

/-- The path `p` lies in the directory `dir`: its components continue those of `dir`, and
none of them is `..`. -/
def Inside (dir p : Str) : Prop :=
  components dir <+: components p ∧ ['.', '.'] ∉ components p

/-- What `os.Open` gives for `fn`, as a result of `serveFiles.Open`. -/
def openedAs {File Err : Type} (osOpen : Str → Except Err File) (fn : Str) :
    OpenResult File Err :=
  match osOpen fn with
  | .error e => .openError fn e
  | .ok f => .file fn f

/-- The normalised form of a name in `serveFiles.Open`:
`filepath.Join(cwd, filepath.FromSlash(path.Clean("/"+name)))`. -/
def normalise (cwd name : Str) : Str :=
  filepathJoin cwd (filepathFromSlash (pathClean ('/' :: name)))

/-- The lines of a text: the stretches between newlines, and the stretch after the last
newline when it is not empty. -/
def textLines : Str → List Str
  | [] => []
  | c :: cs =>
    if c = '\n' then [] :: textLines cs
    else (c :: (textLines cs).headD []) :: (textLines cs).tail

/-- The lines of a text that come before its first line of `maxScanTokenSize` bytes or more,
each without its trailing carriage return. -/
def readLines (content : Str) : List Str :=
  ((textLines content).takeWhile (fun l => decide (l.length < maxScanTokenSize))).map dropCR

/-- The test of a `known_hosts` line in `sshHostKey`: exactly three fields, the first of
which contains `host`. -/
def hostLine (host line : Str) : Bool :=
  decide ((stringsSplitSpace line).length = 3) &&
    stringsContains ((stringsSplitSpace line).getD 0 []) host

/-- What `sshHostKey` makes of the line it uses. -/
def keyOfLine {Key Err : Type} (parseAuthorizedKey : Str → Except Err Key) (line : Str) :
    Except (HostKeyError Err) Key :=
  match parseAuthorizedKey line with
  | .error e => .error (.parsing ((stringsSplitSpace line).getD 2 []) e)
  | .ok k => .ok k

/-- The check of `validateHTTPURL`: a transport error, or a status code of 400 or more. -/
def headFails : HeadResult → Bool
  | .transportError => true
  | .status code => decide (code ≥ 400)

/-- The device-delete calls. -/
def Event.isDelete : Event → Bool
  | .delete _ => true
  | _ => false

/-- The device-create calls. -/
def Event.isCreate : Event → Bool
  | .create _ => true
  | _ => false

/-- The `HEAD` requests. -/
def Event.isHead : Event → Bool
  | .head _ => true
  | _ => false

/-- The starts of an HTTP listener. -/
def Event.isListen : Event → Bool
  | .listen _ _ => true
  | _ => false

/-- The events of the console session. -/
def Event.isConsole : Event → Bool
  | .sshDial _ _ => true
  | .requestPty _ _ => true
  | .terminalRestore => true
  | .sessionClose => true
  | _ => false

/-- The events of lines 188 to 193: the shutdown of the HTTP server, when one was started. -/
def shutdownEvents (s : Settings) : List Event :=
  if s.serveFlag ≠ [] then [Event.shutdown] else []

/-- The events of a run up to and including the device-create call. -/
def createdEvents (s : Settings) : List Event :=
  serveEvents s ++ [.head (kernelURL s.url s.name)] ++ [.head (initrdURL s.url s.name)]
    ++ [.create (createRequest s)]

/-! ## Sample runs -/

/-- The allow-list that `runPacket` builds for the image name `demo`. -/
def demoFiles : serveFiles := ⟨["demo-kernel".toList, "demo-initrd.img".toList]⟩

/-- Flags of a sample run `run packet -base-url ... -api-key ... -project-id ... demo`, the
others at their defaults. -/
def demoFlags : Flags :=
  { baseURLFlag := "http://boot.test/img".toList, zoneFlag := "ams1".toList,
    machineFlag := "baremetal_0".toList, apiKeyFlag := "key".toList,
    projectFlag := "project".toList, hostNameFlag := "linuxkit".toList, nameFlag := [],
    alwaysPXE := true, serveFlag := [], consoleFlag := true, keepFlag := false,
    remArgs := ["demo".toList] }

/-- A sample world: no environment variable is set, the command-line file reads
`console=ttyS1`, every request answers 200, the provider creates device `d1` in `ams1`, the
console gateway is in `known_hosts` and the remote shell exits. -/
def demoEnv (fl : Flags) : Env :=
  { parse := fun _ => some fl,
    getStringValue := fun _ flagVal defaultVal =>
      if flagVal ≠ [] ∧ flagVal ≠ defaultVal then flagVal else defaultVal,
    defaultMachine := "baremetal_0".toList,
    readFile := fun _ => some "console=ttyS1".toList,
    httpHead := fun _ => .status 200,
    devicesCreate := fun _ => some ⟨"d1".toList, "ams1".toList⟩,
    marshalIndent := fun _ => true,
    knownHosts := .ok "sos.ams1.packet.net ssh-rsa AAAA\n".toList,
    parseAuthorizedKey := fun l => .ok l,
    agentDial := true,
    sshDial := fun _ _ _ => true,
    newSession := true,
    getSize := some (80, 24),
    requestPty := fun _ _ => true,
    makeRaw := true,
    shell := true,
    waitReturns := true,
    interrupt := true,
    devicesDelete := fun _ => true }

/-- The settings of the sample run. -/
def demoSettings : Settings :=
  { namePrefix := "demo".toList, url := "http://boot.test/img".toList,
    facility := "ams1".toList, plan := "baremetal_0".toList, apiKey := "key".toList,
    projectID := "project".toList, hostname := "linuxkit".toList, name := "demo".toList,
    alwaysPXE := true, serveFlag := [], consoleFlag := true, keepFlag := false,
    cmdline := "console=ttyS1".toList }

/-- The settings of the sample run with `-serve :8080`. -/
def serveSettings : Settings := { demoSettings with serveFlag := ":8080".toList }

/-- The sample device. -/
def demoDevice : Device := ⟨"d1".toList, "ams1".toList⟩

/-- A line of 70000 bytes without a space. -/
def longLine : Str := List.replicate 70000 'a'

/-- A `known_hosts` line for the console gateway of `ams1`. -/
def gatewayLine : Str := "sos.ams1.packet.net ssh-rsa AAAA".toList

/-- A `known_hosts` file whose first line is `longLine` and whose second line is
`gatewayLine`. -/
def longKnownHosts : Str := longLine ++ '\n' :: gatewayLine

/-- A world in which the local server is asked for and the console gateway is not in
`known_hosts`, so that `sshSOS` returns an error. -/
def noHostKeyEnv : Env :=
  { demoEnv { demoFlags with serveFlag := ":8080".toList } with knownHosts := .ok [] }

/-! # Properties -/

/-! ## Lemmas on `splitSlash` -/

theorem splitSlash_ne_nil (p : Str) : splitSlash p ≠ [] := by
  cases p with
  | nil => simp [splitSlash]
  | cons c cs => by_cases h : c = '/' <;> simp [splitSlash, h]

theorem splitSlash_append (a b : Str) :
    splitSlash (a ++ '/' :: b) = splitSlash a ++ splitSlash b := by
  induction a with
  | nil => simp [splitSlash]
  | cons c cs ih =>
    by_cases h : c = '/'
    · simp [splitSlash, h, ih]
    · have hne := splitSlash_ne_nil cs
      cases hs : splitSlash cs with
      | nil => exact absurd hs hne
      | cons x xs => simp [splitSlash, h, ih, hs]

theorem splitSlash_noSlash (c : Str) (h : '/' ∉ c) : splitSlash c = [c] := by
  induction c with
  | nil => rfl
  | cons x xs ih =>
    have hx : x ≠ '/' := fun e => h (by simp [e])
    have hxs : '/' ∉ xs := fun e => h (by simp [e])
    simp [splitSlash, hx, ih hxs]

/-- The first component is what `takeWhile` copies; the rest follows the slash. -/
theorem splitSlash_takeWhile (p : Str) :
    splitSlash p = p.takeWhile (fun x => x != '/') ::
      (match p.dropWhile (fun x => x != '/') with
       | [] => []
       | _ :: q => splitSlash q) := by
  induction p with
  | nil => rfl
  | cons c cs ih =>
    by_cases h : c = '/'
    · simp [splitSlash, h, List.takeWhile, List.dropWhile]
    · have hb : (c != '/') = true := by simp [h]
      rw [splitSlash, if_neg h, List.takeWhile_cons, List.dropWhile_cons, hb, ih]
      simp

/-! ## The backtracking loop -/

theorem backtrackW_slash (out : Str) (dd w : Nat) (h : out.getD w '/' = '/') :
    backtrackW out dd w = w := by
  cases w with
  | zero => rfl
  | succ n =>
    rw [backtrackW, if_neg]
    exact fun hc => hc.2 h

theorem backtrackW_le (out : Str) (dd w : Nat) (h : w ≤ dd) : backtrackW out dd w = w := by
  cases w with
  | zero => rfl
  | succ n =>
    have : ¬ (n + 1 > dd) := by omega
    simp [backtrackW, this]

/-- Over a stretch without `'/'` above `dotdot` the loop runs down to the lower end. -/
theorem backtrackW_descend (out : Str) (dd lo : Nat) (hlo : dd ≤ lo) :
    ∀ n : Nat, (∀ i, lo < i → i ≤ lo + n → out.getD i '/' ≠ '/') →
      backtrackW out dd (lo + n) = backtrackW out dd lo := by
  intro n
  induction n with
  | zero => intro _; rfl
  | succ n ih =>
    intro h
    have h1 : out.getD (lo + n + 1) '/' ≠ '/' := h (lo + n + 1) (by omega) (by omega)
    have h2 : lo + n + 1 > dd := by omega
    have : backtrackW out dd (lo + (n + 1)) = backtrackW out dd (lo + n) := by
      show backtrackW out dd (lo + n + 1) = _
      rw [backtrackW, if_pos ⟨h2, h1⟩]
    rw [this]
    exact ih (fun i hi1 hi2 => h i hi1 (by omega))

theorem getD_noSlash (A L : Str) (hL : '/' ∉ L) (i : Nat) (h1 : A.length ≤ i)
    (h2 : i < A.length + L.length) : (A ++ L).getD i '/' ≠ '/' := by
  rw [List.getD_append_right _ _ _ _ h1]
  have hlt : i - A.length < L.length := by omega
  rw [List.getD_eq_getElem _ _ hlt]
  intro e
  exact hL (e ▸ List.getElem_mem hlt)

/-- Backtracking over the last element when a slash precedes it above `dotdot`. -/
theorem backtrack_slash (A L : Str) (dd : Nat) (hL : '/' ∉ L) (hdd : dd ≤ A.length) :
    backtrack (A ++ '/' :: L) dd = A := by
  unfold backtrack
  have hlen : (A ++ '/' :: L).length - 1 = A.length + L.length := by simp
  rw [hlen, backtrackW_descend _ dd A.length hdd L.length, backtrackW_slash]
  · exact List.take_left _ _
  · rw [List.getD_append_right _ _ _ _ (le_refl _)]
    simp
  · intro i hi1 hi2
    have := getD_noSlash (A ++ ['/']) L hL i (by simp; omega) (by simp; omega)
    simpa using this

/-- Backtracking over the only element of a rooted path stops after the leading slash. -/
theorem backtrack_root (L : Str) (hL : '/' ∉ L) (hne : L ≠ []) :
    backtrack ('/' :: L) 1 = ['/'] := by
  unfold backtrack
  have hpos : 0 < L.length := List.length_pos.mpr hne
  have hlen : ('/' :: L).length - 1 = 1 + (L.length - 1) := by simp; omega
  rw [hlen, backtrackW_descend _ 1 1 (le_refl 1) (L.length - 1), backtrackW_le _ _ _ (le_refl 1)]
  · simp
  · intro i hi1 hi2
    have := getD_noSlash ['/'] L hL i (by simp; omega) (by simp; omega)
    simpa using this

/-- Backtracking over the only element of a relative path empties the buffer. -/
theorem backtrack_rel (L : Str) (hL : '/' ∉ L) : backtrack L 0 = [] := by
  unfold backtrack
  have h := backtrackW_descend L 0 0 (le_refl 0) (L.length - 1) (by
    intro i hi1 hi2
    have := getD_noSlash [] L hL i (by simp) (by simp; omega)
    simpa using this)
  simp only [Nat.zero_add] at h
  rw [h]
  simp [backtrackW]

/-! ## The output buffer as a rendering of the element stack -/

theorem slashedR_append (a b : List Str) : slashedR (a ++ b) = slashedR b ++ slashedR a := by
  induction a with
  | nil => simp [slashedR]
  | cons c cs ih => simp [slashedR, ih]

theorem slashedR_dots_length (k : Nat) : (slashedR (dots k)).length = 3 * k := by
  induction k with
  | zero => rfl
  | succ k ih =>
    have : dots (k + 1) = ['.', '.'] :: dots k := by simp [dots, List.replicate_succ]
    rw [this, slashedR, List.length_append, ih]
    simp
    omega

theorem slashedR_cons_length (c : Str) (rs : List Str) :
    (slashedR (c :: rs)).length = (slashedR rs).length + 1 + c.length := by
  simp [slashedR]
  omega

theorem slashedR_head (rs : List Str) (h : rs ≠ []) : ∃ X, slashedR rs = '/' :: X := by
  induction rs with
  | nil => exact absurd rfl h
  | cons c cs ih =>
    cases cs with
    | nil => exact ⟨c, by simp [slashedR]⟩
    | cons d ds =>
      obtain ⟨X, hX⟩ := ih (by simp)
      exact ⟨X ++ '/' :: c, by rw [slashedR, hX]; simp⟩

theorem renderR_true_nil : renderR true [] = ['/'] := rfl

theorem renderR_true_cons (c : Str) (rs : List Str) :
    renderR true (c :: rs) = slashedR rs ++ '/' :: c := by
  simp [renderR, slashedR]

theorem renderR_false (rs : List Str) : renderR false rs = (slashedR rs).drop 1 := by
  simp [renderR]

theorem dotdotIndex_true (k : Nat) : dotdotIndex true k = 1 := rfl

theorem dotdotIndex_false (k : Nat) : dotdotIndex false k = 3 * k - 1 := by
  simp [dotdotIndex]

theorem dots_zero : dots 0 = [] := rfl

theorem dots_succ (k : Nat) : dots (k + 1) = ['.', '.'] :: dots k := by
  simp [dots, List.replicate_succ]

/-- The test `out.w > dotdot` holds exactly when a real element is on top of the stack. -/
theorem render_length_gt (rooted : Bool) (ns : List Str) (k : Nat)
    (hns : ∀ c ∈ ns, Normal c) (hk : rooted = true → k = 0) :
    (renderR rooted (ns ++ dots k)).length > dotdotIndex rooted k ↔ ns ≠ [] := by
  cases rooted with
  | true =>
    have hk0 : k = 0 := hk rfl
    subst hk0
    cases ns with
    | nil => simp [renderR_true_nil, dotdotIndex_true, dots_zero]
    | cons n ns =>
      rw [dots_zero, List.append_nil, renderR_true_cons, dotdotIndex_true]
      have : n ≠ [] := (hns n (by simp)).1
      have := List.length_pos.mpr this
      simp
      omega
  | false =>
    rw [renderR_false, dotdotIndex_false, List.length_drop, slashedR_append,
      List.length_append, slashedR_dots_length]
    cases ns with
    | nil => simp [slashedR]
    | cons n ns =>
      have : n ≠ [] := (hns n (by simp)).1
      have := List.length_pos.mpr this
      rw [slashedR_cons_length]
      simp
      omega

/-- Backtracking removes the top element of the stack. -/
theorem backtrack_render (rooted : Bool) (n : Str) (ns : List Str) (k : Nat)
    (hn : Normal n) (hk : rooted = true → k = 0) :
    backtrack (renderR rooted (n :: ns ++ dots k)) (dotdotIndex rooted k)
      = renderR rooted (ns ++ dots k) := by
  cases rooted with
  | true =>
    have hk0 : k = 0 := hk rfl
    subst hk0
    rw [dots_zero, List.append_nil, List.append_nil, renderR_true_cons, dotdotIndex_true]
    cases ns with
    | nil =>
      rw [renderR_true_nil]
      exact backtrack_root n hn.2.1 hn.1
    | cons m ms =>
      rw [renderR_true_cons, ← slashedR]
      apply backtrack_slash _ _ _ hn.2.1
      rw [slashedR_cons_length]
      omega
  | false =>
    rw [renderR_false, renderR_false, dotdotIndex_false, List.cons_append, slashedR]
    by_cases hrs : ns ++ dots k = []
    · have hk0 : k = 0 := by
        cases k with
        | zero => rfl
        | succ k => simp [dots_succ] at hrs
      rw [hrs, hk0]
      exact backtrack_rel n hn.2.1
    · obtain ⟨X, hX⟩ := slashedR_head _ hrs
      have hlen : (slashedR (ns ++ dots k)).length = (slashedR (dots k)).length
          + (slashedR ns).length := by
        rw [slashedR_append, List.length_append]
      rw [hX] at hlen ⊢
      rw [slashedR_dots_length] at hlen
      simp only [List.length_cons] at hlen
      show backtrack (X ++ '/' :: n) (3 * k - 1) = X
      apply backtrack_slash _ _ _ hn.2.1
      omega

/-- Writing a real element (after a slash if needed) pushes it on the stack. -/
theorem push_render (rooted : Bool) (c : Str) (rs : List Str)
    (hrs : ∀ x ∈ rs, x ≠ []) :
    (if (rooted = true ∧ (renderR rooted rs).length ≠ 1) ∨
        (rooted = false ∧ (renderR rooted rs).length ≠ 0)
      then renderR rooted rs ++ ['/'] else renderR rooted rs) ++ c
      = renderR rooted (c :: rs) := by
  cases rs with
  | nil => cases rooted <;> simp [renderR, slashedR]
  | cons r rs =>
    have hr : r ≠ [] := hrs r (by simp)
    have hrl := List.length_pos.mpr hr
    have hlen := slashedR_cons_length r rs
    cases rooted with
    | true =>
      have h1 : (renderR true (r :: rs)).length ≠ 1 := by
        rw [renderR_true_cons, ← slashedR, hlen]
        omega
      rw [if_pos (Or.inl ⟨rfl, h1⟩), renderR_true_cons, renderR_true_cons]
      conv_rhs => rw [slashedR]
      simp
    | false =>
      obtain ⟨X, hX⟩ := slashedR_head (r :: rs) (by simp)
      have h1 : (renderR false (r :: rs)).length ≠ 0 := by
        rw [renderR_false, List.length_drop, hlen]
        omega
      rw [if_pos (Or.inr ⟨rfl, h1⟩), renderR_false, renderR_false]
      conv_rhs => rw [slashedR, hX]
      rw [hX]
      simp

/-! ## One path element at a time -/

theorem procR_nil (rooted : Bool) (S : List Str) : procR rooted S [] = S := rfl

theorem procR_cons (rooted : Bool) (S : List Str) (c : Str) (cs : List Str) :
    procR rooted S (c :: cs) = procR rooted (stepR rooted S c) cs := rfl

theorem stepR_empty (rooted : Bool) (S : List Str) : stepR rooted S [] = S := by
  simp [stepR]

theorem stepR_dot (rooted : Bool) (S : List Str) : stepR rooted S ['.'] = S := by
  simp [stepR]

theorem stepR_normal (rooted : Bool) (S : List Str) (c : Str) (hc : Normal c) :
    stepR rooted S c = c :: S := by
  simp [stepR, hc.1, hc.2.2.1, hc.2.2.2]

theorem dropWhile_shape (l : Str) :
    l.dropWhile (fun x => x != '/') = [] ∨
      ∃ q, l.dropWhile (fun x => x != '/') = '/' :: q := by
  induction l with
  | nil => exact Or.inl rfl
  | cons c cs ih =>
    by_cases h : c = '/'
    · exact Or.inr ⟨cs, by simp [List.dropWhile, h]⟩
    · have hb : (c != '/') = true := by simp [h]
      rw [List.dropWhile_cons, hb]
      exact ih

theorem takeWhile_noSlash (l : Str) : '/' ∉ l.takeWhile (fun x => x != '/') := by
  intro h
  have := List.mem_takeWhile_imp h
  simp at this

/-- Processing a path is processing its first element, then what follows it. -/
theorem procR_first (rooted : Bool) (S : List Str) (l : Str) :
    procR rooted S (splitSlash l)
      = procR rooted (stepR rooted S (l.takeWhile (fun x => x != '/')))
          (splitSlash (l.dropWhile (fun x => x != '/'))) := by
  rw [splitSlash_takeWhile l, procR_cons]
  rcases dropWhile_shape l with h | ⟨q, h⟩
  · rw [h]
    simp [splitSlash, procR_cons, stepR_empty, procR_nil]
  · rw [h]
    simp [splitSlash, procR_cons, stepR_empty]

/-- The test of the `.` case of `path.Clean` recognises the element `.`. -/
theorem dot_case (c : Char) (rest : Str) (hc : c ≠ '/') :
    (c = '.' ∧ (rest = [] ∨ rest.head? = some '/')) ↔
      (c :: rest).takeWhile (fun x => x != '/') = ['.'] := by
  have hb : (c != '/') = true := by simp [hc]
  rw [List.takeWhile_cons, hb]
  cases rest with
  | nil => simp
  | cons x xs =>
    by_cases hx : x = '/'
    · simp [hx, List.takeWhile]
    · have hxb : (x != '/') = true := by simp [hx]
      simp [List.takeWhile_cons, hxb, hx]

theorem dot_rem (rest : Str) (h : rest = [] ∨ rest.head? = some '/') :
    ('.' :: rest).dropWhile (fun x => x != '/') = rest := by
  cases rest with
  | nil => simp [List.dropWhile]
  | cons x xs =>
    have hx : x = '/' := by simpa using h
    subst hx
    simp [List.dropWhile]

/-- The test of the `..` case of `path.Clean` recognises the element `..`. -/
theorem dotdot_case (c : Char) (rest : Str) (hc : c ≠ '/') :
    (c = '.' ∧ rest.head? = some '.' ∧ (rest.tail = [] ∨ rest.tail.head? = some '/')) ↔
      (c :: rest).takeWhile (fun x => x != '/') = ['.', '.'] := by
  have hb : (c != '/') = true := by simp [hc]
  rw [List.takeWhile_cons, hb]
  cases rest with
  | nil => simp
  | cons x xs =>
    by_cases hx : x = '/'
    · subst hx
      simp [List.takeWhile]
    · have hxb : (x != '/') = true := by simp [hx]
      rw [List.takeWhile_cons, hxb]
      cases xs with
      | nil => simp
      | cons y ys =>
        by_cases hy : y = '/'
        · simp [hy, List.takeWhile]
        · have hyb : (y != '/') = true := by simp [hy]
          simp [List.takeWhile_cons, hyb, hy]

theorem dotdot_rem (rest : Str) (h1 : rest.head? = some '.')
    (h2 : rest.tail = [] ∨ rest.tail.head? = some '/') :
    ('.' :: rest).dropWhile (fun x => x != '/') = rest.tail := by
  cases rest with
  | nil => simp at h1
  | cons x xs =>
    have hx : x = '.' := by simpa using h1
    subst hx
    have := dot_rem xs (by simpa using h2)
    simpa [List.dropWhile] using this

/-! ## The main loop computes the element stack -/

theorem normal_ne_nil_of_stack (ns : List Str) (k : Nat) (hns : ∀ c ∈ ns, Normal c) :
    ∀ x ∈ ns ++ dots k, x ≠ [] := by
  intro x hx
  rcases List.mem_append.mp hx with h | h
  · exact (hns x h).1
  · have : x = ['.', '.'] := List.eq_of_mem_replicate h
    simp [this]

theorem cleanLoop_nil (rooted : Bool) (fuel : Nat) (out : Str) (dd : Nat) :
    cleanLoop rooted fuel [] out dd = out := by
  cases fuel <;> rfl

theorem dropWhile_length_le (l : Str) :
    (l.dropWhile (fun x => x != '/')).length ≤ l.length := by
  have h := congrArg List.length (List.takeWhile_append_dropWhile (fun x => x != '/') l)
  rw [List.length_append] at h
  omega

/-- From a buffer that renders the stack `ns ++ dots k`, the loop of `path.Clean` ends with
the buffer that renders the stack after the remaining path; its fuel suffices. -/
theorem cleanLoop_spec (rooted : Bool) :
    ∀ (fuel : Nat) (rest : Str) (ns : List Str) (k : Nat), rest.length ≤ fuel →
      (∀ c ∈ ns, Normal c) → (rooted = true → k = 0) →
      cleanLoop rooted fuel rest (renderR rooted (ns ++ dots k)) (dotdotIndex rooted k)
        = renderR rooted (procR rooted (ns ++ dots k) (splitSlash rest)) := by
  intro fuel
  induction fuel with
  | zero =>
    intro rest ns k hlen _ _
    have : rest = [] := List.length_eq_zero.mp (by omega)
    subst this
    simp [cleanLoop, splitSlash, procR_cons, stepR_empty, procR_nil]
  | succ fuel ih =>
    intro rest ns k hlen hns hk
    cases rest with
    | nil => simp [cleanLoop, splitSlash, procR_cons, stepR_empty, procR_nil]
    | cons c rest =>
      have hlen1 : rest.length ≤ fuel := by simpa using hlen
      rw [cleanLoop]
      by_cases hc : c = '/'
      · rw [if_pos hc, ih rest ns k hlen1 hns hk]
        simp [splitSlash, hc, procR_cons, stepR_empty]
      · rw [if_neg hc, procR_first]
        have hdrop : ((c :: rest).dropWhile (fun x => x != '/')).length ≤ fuel := by
          have hb : (c != '/') = true := by simp [hc]
          rw [List.dropWhile_cons, hb]
          exact le_trans (dropWhile_length_le rest) hlen1
        by_cases hB : c = '.' ∧ (rest = [] ∨ rest.head? = some '/')
        · rw [if_pos hB, (dot_case c rest hc).mp hB, stepR_dot, hB.1, dot_rem rest hB.2]
          exact ih rest ns k hlen1 hns hk
        · rw [if_neg hB]
          by_cases hC : c = '.' ∧ rest.head? = some '.' ∧
              (rest.tail = [] ∨ rest.tail.head? = some '/')
          · rw [if_pos hC, (dotdot_case c rest hc).mp hC, hC.1, dotdot_rem rest hC.2.1 hC.2.2]
            have hlen2 : rest.tail.length ≤ fuel := by
              rw [List.length_tail]; omega
            cases ns with
            | nil =>
              have hgt : ¬ (renderR rooted ([] ++ dots k)).length > dotdotIndex rooted k := by
                rw [render_length_gt rooted [] k hns hk]; simp
              rw [if_neg hgt]
              cases rooted with
              | true =>
                have hk0 : k = 0 := hk rfl
                subst hk0
                rw [if_neg (by simp)]
                have : stepR true ([] ++ dots 0) ['.', '.'] = [] ++ dots 0 := by
                  simp [stepR, dots_zero]
                rw [this]
                exact ih rest.tail [] 0 hlen2 hns hk
              | false =>
                rw [if_pos rfl]
                have hst : stepR false ([] ++ dots k) ['.', '.'] = [] ++ dots (k + 1) := by
                  cases k with
                  | zero => simp [stepR, dots_zero, dots_succ]
                  | succ k => simp [stepR, dots_succ]
                have hout : (if (renderR false ([] ++ dots k)).length > 0
                    then renderR false ([] ++ dots k) ++ ['/']
                    else renderR false ([] ++ dots k)) ++ ['.', '.']
                    = renderR false ([] ++ dots (k + 1)) := by
                  have := push_render false ['.', '.'] ([] ++ dots k)
                    (normal_ne_nil_of_stack [] k hns)
                  simp only [List.nil_append] at this ⊢
                  rw [dots_succ, ← this]
                  simp [Nat.pos_iff_ne_zero]
                have hdd : (renderR false ([] ++ dots (k + 1))).length
                    = dotdotIndex false (k + 1) := by
                  rw [renderR_false, dotdotIndex_false, List.length_drop, List.nil_append,
                    slashedR_dots_length]
                simp only []
                rw [hout, hdd, hst]
                exact ih rest.tail [] (k + 1) hlen2 hns (by simp)
            | cons n ns =>
              have hgt : (renderR rooted (n :: ns ++ dots k)).length > dotdotIndex rooted k := by
                rw [render_length_gt rooted (n :: ns) k hns hk]; simp
              have hn : Normal n := hns n (by simp)
              have hns1 : ∀ c ∈ ns, Normal c := fun c hc => hns c (by simp [hc])
              rw [if_pos hgt, backtrack_render rooted n ns k hn hk]
              have hst : stepR rooted (n :: ns ++ dots k) ['.', '.'] = ns ++ dots k := by
                simp [stepR, hn.2.2.2]
              rw [hst]
              exact ih rest.tail ns k hlen2 hns1 hk
          · rw [if_neg hC]
            have hcomp : Normal ((c :: rest).takeWhile (fun x => x != '/')) := by
              refine ⟨?_, takeWhile_noSlash _, ?_, ?_⟩
              · have hb : (c != '/') = true := by simp [hc]
                rw [List.takeWhile_cons, hb]
                simp
              · exact fun h => hB ((dot_case c rest hc).mpr h)
              · exact fun h => hC ((dotdot_case c rest hc).mpr h)
            simp only []
            rw [push_render rooted _ _ (normal_ne_nil_of_stack ns k hns),
              stepR_normal rooted _ _ hcomp]
            have hns1 : ∀ x ∈ (c :: rest).takeWhile (fun x => x != '/') :: ns, Normal x := by
              intro x hx
              rcases List.mem_cons.mp hx with h | h
              · exact h ▸ hcomp
              · exact hns x h
            exact ih _ (_ :: ns) k hdrop hns1 hk

/-! ## Valid element stacks -/

theorem splitSlash_mem_noSlash (p : Str) : ∀ c ∈ splitSlash p, '/' ∉ c := by
  induction p with
  | nil => intro c hc; simp [splitSlash] at hc; simp [hc]
  | cons x xs ih =>
    intro c hc
    by_cases hx : x = '/'
    · simp only [splitSlash, hx, if_true, List.mem_cons] at hc
      rcases hc with h | h
      · simp [h]
      · exact ih c h
    · simp only [splitSlash, hx, if_false, List.mem_cons] at hc
      cases hs : splitSlash xs with
      | nil => exact absurd hs (splitSlash_ne_nil xs)
      | cons y ys =>
        rw [hs] at hc ih
        rcases hc with h | h
        · have hy : '/' ∉ y := ih y (by simp)
          subst h
          simp only [List.headD_cons, List.mem_cons, not_or]
          exact ⟨fun e => hx e.symm, hy⟩
        · exact ih c (by simp at h ⊢; exact Or.inr h)

theorem stack_nil (rooted : Bool) : Stack rooted [] :=
  ⟨[], 0, rfl, by simp, fun _ => rfl⟩

theorem stack_of_normal (rooted : Bool) (ns : List Str) (h : ∀ c ∈ ns, Normal c) :
    Stack rooted ns :=
  ⟨ns, 0, by simp [dots_zero], h, fun _ => rfl⟩

theorem stack_rooted_normal (rs : List Str) (h : Stack true rs) : ∀ c ∈ rs, Normal c := by
  obtain ⟨ns, k, hrs, hns, hk⟩ := h
  have hk0 := hk rfl
  subst hk0
  simpa [hrs, dots_zero] using hns

theorem stepR_stack (rooted : Bool) (rs : List Str) (c : Str) (hs : Stack rooted rs)
    (hc : '/' ∉ c) : Stack rooted (stepR rooted rs c) := by
  obtain ⟨ns, k, hrs, hns, hk⟩ := hs
  by_cases h1 : c = [] ∨ c = ['.']
  · have : stepR rooted rs c = rs := by simp [stepR, h1]
    rw [this]
    exact ⟨ns, k, hrs, hns, hk⟩
  · by_cases h2 : c = ['.', '.']
    · subst h2
      subst hrs
      cases ns with
      | nil =>
        cases rooted with
        | true =>
          have hk0 := hk rfl
          subst hk0
          have : stepR true ([] ++ dots 0) ['.', '.'] = [] := by simp [stepR, dots_zero]
          rw [this]
          exact stack_nil true
        | false =>
          have : stepR false ([] ++ dots k) ['.', '.'] = [] ++ dots (k + 1) := by
            cases k with
            | zero => simp [stepR, dots_zero, dots_succ]
            | succ k => simp [stepR, dots_succ]
          rw [this]
          exact ⟨[], k + 1, rfl, by simp, by simp⟩
      | cons n ns =>
        have hn : Normal n := hns n (by simp)
        have : stepR rooted (n :: ns ++ dots k) ['.', '.'] = ns ++ dots k := by
          simp [stepR, hn.2.2.2]
        rw [this]
        exact ⟨ns, k, rfl, fun x hx => hns x (by simp [hx]), hk⟩
    · have hn : Normal c := ⟨fun e => h1 (Or.inl e), hc, fun e => h1 (Or.inr e), h2⟩
      rw [stepR_normal rooted rs c hn, hrs]
      refine ⟨c :: ns, k, rfl, ?_, hk⟩
      intro x hx
      rcases List.mem_cons.mp hx with h | h
      · exact h ▸ hn
      · exact hns x h

theorem procR_stack (rooted : Bool) (comps : List Str) :
    ∀ rs : List Str, Stack rooted rs → (∀ c ∈ comps, '/' ∉ c) →
      Stack rooted (procR rooted rs comps) := by
  induction comps with
  | nil => intro rs h _; exact h
  | cons c cs ih =>
    intro rs h hc
    rw [procR_cons]
    exact ih _ (stepR_stack rooted rs c h (hc c (by simp))) (fun x hx => hc x (by simp [hx]))

/-- Real elements are pushed one after the other. -/
theorem procR_push (rooted : Bool) (L : List Str) :
    ∀ S : List Str, (∀ c ∈ L, Normal c) → procR rooted S L = L.reverse ++ S := by
  induction L with
  | nil => intro S _; rfl
  | cons c cs ih =>
    intro S h
    rw [procR_cons, stepR_normal rooted S c (h c (by simp)),
      ih _ (fun x hx => h x (by simp [hx]))]
    simp

theorem splitSlash_slashedR (X : List Str) (h : ∀ c ∈ X, '/' ∉ c) :
    splitSlash (slashedR X) = [] :: X.reverse := by
  induction X with
  | nil => rfl
  | cons c cs ih =>
    rw [slashedR, splitSlash_append, ih (fun x hx => h x (by simp [hx])),
      splitSlash_noSlash c (h c (by simp))]
    simp

/-! ## `path.Clean` in terms of the element stack -/

theorem renderR_true_ne_nil (X : List Str) : renderR true X ≠ [] := by
  cases X with
  | nil => simp [renderR_true_nil]
  | cons c cs => simp [renderR_true_cons]

/-- `path.Clean` of a rooted path renders the stack of its elements. -/
theorem pathClean_rooted (s : Str) :
    pathClean ('/' :: s) = renderR true (procR true [] (splitSlash s)) := by
  have h := cleanLoop_spec true (s.length + 1) s [] 0 (by omega) (by simp) (fun _ => rfl)
  simp only [List.nil_append, dots_zero, renderR_true_nil, dotdotIndex_true] at h
  have hne := renderR_true_ne_nil (procR true [] (splitSlash s))
  simp only [pathClean]
  simp only [List.length_cons, List.head?_cons, List.drop_succ_cons, List.drop_zero,
    decide_True, if_true, h]
  rw [if_neg (by simp), if_neg (by simpa using hne)]

/-- `path.Clean` of a relative path renders the stack of its elements, `"."` when empty. -/
theorem pathClean_rel (x : Char) (t : Str) (hx : x ≠ '/') :
    pathClean (x :: t)
      = dotIfEmpty (renderR false (procR false [] (splitSlash (x :: t)))) := by
  have h := cleanLoop_spec false (x :: t).length (x :: t) [] 0 (le_refl _) (by simp)
    (by simp)
  simp only [List.nil_append, dots_zero] at h
  have h0 : renderR false [] = [] := rfl
  have h1 : dotdotIndex false 0 = 0 := rfl
  rw [h0, h1] at h
  have hh : ((x :: t).head? = some '/') = False := by simp [hx]
  simp only [pathClean, dotIfEmpty]
  rw [if_neg (by simp)]
  simp only [List.head?_cons, Option.some.injEq, hx, decide_False, Bool.false_eq_true,
    if_false, h]

/-! ## `filepath.Join` of a directory and a cleaned rooted path -/

theorem cleanStack_normal (name : Str) : ∀ c ∈ cleanStack name, Normal c :=
  stack_rooted_normal _
    (procR_stack true _ [] (stack_nil true) (splitSlash_mem_noSlash name))

theorem pathClean_slash (name : Str) :
    pathClean ('/' :: name) = renderR true (cleanStack name) :=
  pathClean_rooted name

theorem cwdStack_stack (cwd : Str) : Stack (cwdRooted cwd) (cwdStack cwd) :=
  procR_stack _ _ [] (stack_nil _) (splitSlash_mem_noSlash cwd)

theorem stack_append (rooted : Bool) (N S : List Str) (hN : ∀ c ∈ N, Normal c)
    (hS : Stack rooted S) : Stack rooted (N ++ S) := by
  obtain ⟨ns, k, hrs, hns, hk⟩ := hS
  refine ⟨N ++ ns, k, by simp [hrs], ?_, hk⟩
  intro c hc
  rcases List.mem_append.mp hc with h | h
  · exact hN c h
  · exact hns c h

/-- Reading back a rendered rooted stack pushes its elements. -/
theorem procR_render (rooted : Bool) (S N : List Str) (hN : ∀ c ∈ N, Normal c) :
    procR rooted S (splitSlash (renderR true N)) = N ++ S := by
  cases N with
  | nil =>
    simp [renderR_true_nil, splitSlash, procR_cons, stepR_empty, procR_nil]
  | cons n ns =>
    rw [renderR_true_cons, ← slashedR,
      splitSlash_slashedR _ (fun c hc => (hN c hc).2.1), procR_cons, stepR_empty,
      procR_push rooted _ S (by
        intro c hc
        exact hN c (List.mem_reverse.mp hc))]
    simp

theorem renderR_true_head (N : List Str) : ∃ Z, renderR true N = '/' :: Z := by
  cases N with
  | nil => exact ⟨[], rfl⟩
  | cons n ns =>
    obtain ⟨X, hX⟩ := slashedR_head (n :: ns) (by simp)
    exact ⟨X, by rw [renderR_true_cons, ← slashedR, hX]⟩

/-- `filepath.Join(cwd, c)` for a cleaned rooted `c` puts the elements of `c` on the stack
of `cwd`. -/
theorem join_render (cwd : Str) (N : List Str) (hN : ∀ c ∈ N, Normal c) :
    filepathJoin cwd (filepathFromSlash (renderR true N))
      = dotIfEmpty (renderR (cwdRooted cwd) (N ++ cwdStack cwd)) := by
  obtain ⟨Z, hZ⟩ := renderR_true_head N
  have hsplit : ∀ r S, procR r S (splitSlash Z) = N ++ S := by
    intro r S
    have := procR_render r S N hN
    rw [hZ] at this
    simpa [splitSlash, procR_cons, stepR_empty] using this
  cases cwd with
  | nil =>
    have h1 : cwdRooted [] = true := by simp [cwdRooted]
    have h2 : cwdStack [] = [] := by
      simp [cwdStack, h1, splitSlash, procR_cons, stepR_empty, procR_nil]
    rw [h1, h2, List.append_nil]
    simp only [filepathJoin, filepathFromSlash, filepathClean]
    rw [if_neg (by simp), if_pos (renderR_true_ne_nil N)]
    rw [hZ, pathClean_rooted, hsplit, List.append_nil, ← hZ]
    simp [dotIfEmpty, renderR_true_ne_nil]
  | cons x t =>
    simp only [filepathJoin, filepathFromSlash, filepathClean]
    rw [if_pos (by simp)]
    by_cases hx : x = '/'
    · subst hx
      have h1 : cwdRooted ('/' :: t) = true := by simp [cwdRooted]
      have h2 : cwdStack ('/' :: t) = procR true [] (splitSlash t) := by
        simp [cwdStack, h1, splitSlash, procR_cons, stepR_empty]
      rw [h1, h2, List.cons_append, pathClean_rooted, splitSlash_append]
      have : procR true [] (splitSlash t ++ splitSlash (renderR true N))
          = N ++ procR true [] (splitSlash t) := by
        unfold procR
        rw [List.foldl_append]
        exact procR_render true _ N hN
      rw [this]
      simp [dotIfEmpty, renderR_true_ne_nil]
    · have h1 : cwdRooted (x :: t) = false := by simp [cwdRooted, hx]
      rw [h1, List.cons_append, pathClean_rel x _ hx, ← List.cons_append, splitSlash_append]
      have : procR false [] (splitSlash (x :: t) ++ splitSlash (renderR true N))
          = N ++ cwdStack (x :: t) := by
        unfold cwdStack procR
        rw [List.foldl_append, h1]
        exact procR_render false _ N hN
      rw [this]

/-! ## Reading the element stack back from the output -/

theorem stack_elem (rooted : Bool) (X : List Str) (h : Stack rooted X) :
    ∀ c ∈ X, c ≠ [] ∧ '/' ∉ c ∧ c ≠ ['.'] := by
  obtain ⟨ns, k, hrs, hns, _⟩ := h
  intro c hc
  rw [hrs] at hc
  rcases List.mem_append.mp hc with h | h
  · exact ⟨(hns c h).1, (hns c h).2.1, (hns c h).2.2.1⟩
  · have : c = ['.', '.'] := List.eq_of_mem_replicate h
    subst this
    simp

theorem filter_nonempty_self (L : List Str) (h : ∀ c ∈ L, c ≠ []) :
    L.filter (fun c => c ≠ []) = L := by
  rw [List.filter_eq_self]
  intro c hc
  simpa using h c hc

/-- The components of the output are the element stack, bottom first. -/
theorem components_render (rooted : Bool) (X : List Str) (h : Stack rooted X) :
    components (dotIfEmpty (renderR rooted X))
      = if X = [] ∧ rooted = false then [['.']] else X.reverse := by
  have hel := stack_elem rooted X h
  cases X with
  | nil =>
    cases rooted with
    | true => simp [renderR_true_nil, dotIfEmpty, components, splitSlash]
    | false => simp [renderR_false, slashedR, dotIfEmpty, components, splitSlash]
  | cons c cs =>
    rw [if_neg (by simp)]
    have hsp := splitSlash_slashedR (c :: cs) (fun x hx => (hel x hx).2.1)
    have hfil : (c :: cs).reverse.filter (fun c => c ≠ []) = (c :: cs).reverse :=
      filter_nonempty_self _ (fun x hx => (hel x (List.mem_reverse.mp hx)).1)
    cases rooted with
    | true =>
      have hne := renderR_true_ne_nil (c :: cs)
      have : dotIfEmpty (renderR true (c :: cs)) = slashedR (c :: cs) := by
        rw [renderR_true_cons, ← slashedR] at hne ⊢
        simp [dotIfEmpty, hne]
      rw [this, components, hsp]
      simpa using hfil
    | false =>
      obtain ⟨Z, hZ⟩ := slashedR_head (c :: cs) (by simp)
      have hZs : splitSlash Z = (c :: cs).reverse := by
        rw [hZ] at hsp
        simpa [splitSlash] using hsp
      have hZne : Z ≠ [] := by
        intro e
        rw [e] at hZs
        have : (c :: cs).reverse = [[]] := by simpa [splitSlash] using hZs.symm
        have hmem : ([] : Str) ∈ c :: cs := List.mem_reverse.mp (by rw [this]; simp)
        exact (hel [] hmem).1 rfl
      have : dotIfEmpty (renderR false (c :: cs)) = Z := by
        rw [renderR_false, hZ]
        simp [dotIfEmpty, hZne]
      rw [this, components, hZs]
      exact hfil

/-- Two valid stacks with the same output are equal. -/
theorem render_inj (rooted : Bool) (X Y : List Str) (hX : Stack rooted X)
    (hY : Stack rooted Y)
    (h : dotIfEmpty (renderR rooted X) = dotIfEmpty (renderR rooted Y)) : X = Y := by
  have hc := congrArg components h
  rw [components_render rooted X hX, components_render rooted Y hY] at hc
  have key : ∀ W : List Str, Stack rooted W → W.reverse ≠ [['.']] := by
    intro W hW e
    have hmem : ['.'] ∈ W := List.mem_reverse.mp (by rw [e]; simp)
    exact (stack_elem rooted W hW _ hmem).2.2 rfl
  by_cases h1 : X = [] ∧ rooted = false
  · by_cases h2 : Y = [] ∧ rooted = false
    · rw [h1.1, h2.1]
    · rw [if_pos h1, if_neg h2] at hc
      exact absurd hc.symm (key Y hY)
  · by_cases h2 : Y = [] ∧ rooted = false
    · rw [if_neg h1, if_pos h2] at hc
      exact absurd hc (key X hX)
    · rw [if_neg h1, if_neg h2] at hc
      exact List.reverse_injective hc

/-- The normalised form of a requested name, as `serveFiles.Open` computes it. -/
theorem normalise_eq (cwd name : Str) :
    filepathJoin cwd (filepathFromSlash (pathClean ('/' :: name)))
      = dotIfEmpty (renderR (cwdRooted cwd) (cleanStack name ++ cwdStack cwd)) := by
  rw [pathClean_slash, join_render cwd _ (cleanStack_normal name)]

/-- Joining to the working directory loses nothing: two names have the same normalised
form exactly when `path.Clean` maps them, rooted, to the same path. -/
theorem normalise_inj (cwd a b : Str) :
    filepathJoin cwd (filepathFromSlash (pathClean ('/' :: a)))
        = filepathJoin cwd (filepathFromSlash (pathClean ('/' :: b)))
      ↔ pathClean ('/' :: a) = pathClean ('/' :: b) := by
  constructor
  · intro h
    rw [normalise_eq, normalise_eq] at h
    have := render_inj _ _ _
      (stack_append _ _ _ (cleanStack_normal a) (cwdStack_stack cwd))
      (stack_append _ _ _ (cleanStack_normal b) (cwdStack_stack cwd)) h
    rw [pathClean_slash, pathClean_slash, List.append_cancel_right this]
  · intro h
    rw [h]

/-! ## `serveFiles.Open` -/

theorem openLoop_eq {File Err : Type} (osOpen : Str → Except Err File) (cwd name : Str)
    (files : List Str) :
    openLoop osOpen cwd name files =
      if name ∈ files.map
          (fun fn => filepathJoin cwd (filepathFromSlash (pathClean ('/' :: fn))))
      then ([name], openedAs osOpen name) else ([], .notFound name) := by
  induction files with
  | nil => simp [openLoop]
  | cons fn fns ih =>
    rw [openLoop]
    by_cases h : name = filepathJoin cwd (filepathFromSlash (pathClean ('/' :: fn)))
    · simp only [← h, if_true, List.map_cons, List.mem_cons, true_or]
      unfold openedAs
      cases osOpen name <;> rfl
    · simp only [h, if_false, ih, List.map_cons, List.mem_cons, false_or]

theorem cleaned_head (name : Str) : (pathClean ('/' :: name)).head? = some '/' := by
  obtain ⟨Z, hZ⟩ := renderR_true_head (cleanStack name)
  rw [pathClean_slash, hZ]
  rfl

theorem cleaned_components (name : Str) :
    components (pathClean ('/' :: name)) = (cleanStack name).reverse := by
  have h := components_render true _ (stack_of_normal true _ (cleanStack_normal name))
  rw [if_neg (by simp)] at h
  rw [pathClean_slash, ← h]
  simp [dotIfEmpty, renderR_true_ne_nil]

theorem cleaned_no_dotdot (name : Str) :
    ['.', '.'] ∉ components (pathClean ('/' :: name)) := by
  rw [cleaned_components]
  intro h
  exact (cleanStack_normal name _ (List.mem_reverse.mp h)).2.2.2 rfl

/-- Under a rooted working directory the normalised form of a name lies in it. -/
theorem normalise_inside (cwd name : Str) (hcwd : cwd.head? = some '/') :
    components (filepathJoin cwd (filepathFromSlash (pathClean ('/' :: name))))
        = components (pathClean cwd) ++ components (pathClean ('/' :: name)) ∧
      Inside (pathClean cwd)
        (filepathJoin cwd (filepathFromSlash (pathClean ('/' :: name)))) := by
  cases cwd with
  | nil => simp at hcwd
  | cons x t =>
    have hx : x = '/' := by simpa using hcwd
    subst hx
    have hr : cwdRooted ('/' :: t) = true := by simp [cwdRooted]
    have hS : Stack true (cwdStack ('/' :: t)) := hr ▸ cwdStack_stack ('/' :: t)
    have hst : cwdStack ('/' :: t) = procR true [] (splitSlash t) := by
      simp [cwdStack, hr, splitSlash, procR_cons, stepR_empty]
    have hNS := stack_append true _ _ (cleanStack_normal name) hS
    have h1 : components (filepathJoin ('/' :: t)
        (filepathFromSlash (pathClean ('/' :: name))))
        = (cleanStack name ++ cwdStack ('/' :: t)).reverse := by
      rw [normalise_eq, hr, components_render true _ hNS, if_neg (by simp)]
    have h2 : components (pathClean ('/' :: t)) = (cwdStack ('/' :: t)).reverse := by
      have h := components_render true _ hS
      rw [if_neg (by simp)] at h
      rw [pathClean_rooted, ← hst, ← h]
      simp [dotIfEmpty, renderR_true_ne_nil]
    have h3 : components (filepathJoin ('/' :: t)
        (filepathFromSlash (pathClean ('/' :: name))))
        = components (pathClean ('/' :: t)) ++ components (pathClean ('/' :: name)) := by
      rw [h1, h2, cleaned_components, List.reverse_append]
    refine ⟨h3, ?_, ?_⟩
    · rw [h3]
      exact List.prefix_append _ _
    · rw [h1]
      intro h
      exact (stack_rooted_normal _ hNS _ (List.mem_reverse.mp h)).2.2.2 rfl

/-- Under a rooted working directory, joining one real element appends it to the cleaned
directory. -/
theorem join_single (cwd n : Str) (hcwd : cwd.head? = some '/') (hn : Normal n) :
    filepathJoin cwd ('/' :: n)
      = (if pathClean cwd = ['/'] then [] else pathClean cwd) ++ '/' :: n := by
  cases cwd with
  | nil => simp at hcwd
  | cons x t =>
    have hx : x = '/' := by simpa using hcwd
    subst hx
    have hr : cwdRooted ('/' :: t) = true := by simp [cwdRooted]
    have hS : Stack true (cwdStack ('/' :: t)) := hr ▸ cwdStack_stack ('/' :: t)
    have hst : cwdStack ('/' :: t) = procR true [] (splitSlash t) := by
      simp [cwdStack, hr, splitSlash, procR_cons, stepR_empty]
    have hN : ∀ c ∈ [n], Normal c := by
      intro c hc
      rw [List.mem_singleton.mp hc]
      exact hn
    have hj := join_render ('/' :: t) [n] hN
    rw [renderR_true_cons, hr] at hj
    simp only [slashedR, List.nil_append, filepathFromSlash, List.singleton_append] at hj
    rw [hj, pathClean_rooted, ← hst, renderR_true_cons]
    have hd : dotIfEmpty (slashedR (cwdStack ('/' :: t)) ++ '/' :: n)
        = slashedR (cwdStack ('/' :: t)) ++ '/' :: n := by
      simp [dotIfEmpty]
    rw [hd]
    cases hcs : cwdStack ('/' :: t) with
    | nil => simp [renderR_true_nil, slashedR]
    | cons c cs =>
      have hc : c ≠ [] := by
        have := stack_elem true _ hS c (by rw [hcs]; simp)
        exact this.1
      have hcl := List.length_pos.mpr hc
      have hne : renderR true (c :: cs) ≠ ['/'] := by
        intro e
        have hl := congrArg List.length e
        rw [renderR_true_cons] at hl
        simp at hl
        omega
      rw [if_neg hne, renderR_true_cons]
      rfl

theorem open_eq {File Err : Type} (fs : serveFiles) (cwd : Str)
    (osOpen : Str → Except Err File) (P : Str) :
    fs.Open (.ok cwd) osOpen P =
      if normalise cwd P ∈ fs.files.map (normalise cwd)
      then ([normalise cwd P], openedAs osOpen (normalise cwd P))
      else ([], .notFound (normalise cwd P)) := by
  simp only [serveFiles.Open]
  exact openLoop_eq osOpen cwd _ fs.files

/-- C1: for every working directory, allow-list and requested name `P`, `serveFiles.Open`
returns a file (or the error of opening it) if and only if the normalised form of `P` is
equal to the normalised form of an allow-listed name; it then hands exactly that path to
`os.Open`. In every other case it returns the not-found error and opens nothing. -/
theorem C1_open_iff_allowlisted {File Err : Type} (fs : serveFiles) (cwd : Str)
    (osOpen : Str → Except Err File) (P : Str) :
    ((∃ fn, (∃ f, (fs.Open (.ok cwd) osOpen P).2 = .file fn f) ∨
          (∃ e, (fs.Open (.ok cwd) osOpen P).2 = .openError fn e))
        ↔ normalise cwd P ∈ fs.files.map (normalise cwd)) ∧
    (normalise cwd P ∈ fs.files.map (normalise cwd) →
        fs.Open (.ok cwd) osOpen P
          = ([normalise cwd P], openedAs osOpen (normalise cwd P))) ∧
    (normalise cwd P ∉ fs.files.map (normalise cwd) →
        fs.Open (.ok cwd) osOpen P = ([], .notFound (normalise cwd P))) := by
  rw [open_eq]
  by_cases h : normalise cwd P ∈ fs.files.map (normalise cwd)
  · rw [if_pos h]
    refine ⟨⟨fun _ => h, fun _ => ?_⟩, fun _ => rfl, fun h' => absurd h h'⟩
    refine ⟨normalise cwd P, ?_⟩
    simp only [openedAs]
    cases osOpen (normalise cwd P) with
    | error e => exact Or.inr ⟨e, rfl⟩
    | ok f => exact Or.inl ⟨f, rfl⟩
  · rw [if_neg h]
    refine ⟨⟨?_, fun h' => absurd h' h⟩, fun h' => absurd h' h, fun _ => rfl⟩
    rintro ⟨fn, ⟨f, hf⟩ | ⟨e, he⟩⟩
    · cases hf
    · cases he

/-- C2: every path that `serveFiles.Open` hands to `os.Open` is the working directory joined
with `path.Clean("/"+fn)` for an allow-listed `fn`; that cleaned path is rooted and has no
`..` component, and under a rooted working directory the opened path lies inside it.
With the allow-list of `demo`, `/../../etc/passwd` is not found and opens nothing, and
`/demo-kernel` opens the working directory joined with `/demo-kernel`, which for a rooted
working directory is its cleaned form followed by `/demo-kernel`. -/
theorem C2_opened_path_safe :
    (∀ (File Err : Type) (fs : serveFiles) (cwd : Str) (osOpen : Str → Except Err File)
        (P p : Str), p ∈ (fs.Open (.ok cwd) osOpen P).1 →
        ∃ fn ∈ fs.files, p = filepathJoin cwd (pathClean ('/' :: fn)) ∧
          p = normalise cwd P ∧
          (pathClean ('/' :: fn)).head? = some '/' ∧
          ['.', '.'] ∉ components (pathClean ('/' :: fn)) ∧
          (cwd.head? = some '/' → Inside (pathClean cwd) p)) ∧
    (∀ (File Err : Type) (cwd : Str) (osOpen : Str → Except Err File),
        demoFiles.Open (.ok cwd) osOpen "/../../etc/passwd".toList
          = ([], .notFound (normalise cwd "/../../etc/passwd".toList)) ∧
        demoFiles.Open (.ok cwd) osOpen "/demo-kernel".toList
          = ([filepathJoin cwd "/demo-kernel".toList],
              openedAs osOpen (filepathJoin cwd "/demo-kernel".toList)) ∧
        (cwd.head? = some '/' → filepathJoin cwd "/demo-kernel".toList
          = (if pathClean cwd = ['/'] then [] else pathClean cwd)
              ++ "/demo-kernel".toList)) := by
  constructor
  · intro File Err fs cwd osOpen P p hp
    rw [open_eq] at hp
    by_cases h : normalise cwd P ∈ fs.files.map (normalise cwd)
    · rw [if_pos h] at hp
      have hpe : p = normalise cwd P := by simpa using hp
      obtain ⟨fn, hfn, he⟩ := List.mem_map.mp h
      refine ⟨fn, hfn, ?_, hpe, cleaned_head fn, cleaned_no_dotdot fn, ?_⟩
      · rw [hpe, ← he]
        rfl
      · intro hcwd
        rw [hpe, ← he]
        exact (normalise_inside cwd fn hcwd).2
    · rw [if_neg h] at hp
      simp at hp
  · intro File Err cwd osOpen
    refine ⟨?_, ?_, fun hcwd =>
      join_single cwd "demo-kernel".toList hcwd (by simp [Normal])⟩
    · rw [open_eq, if_neg]
      intro h
      obtain ⟨fn, hfn, he⟩ := List.mem_map.mp h
      have hc := (normalise_inj cwd fn "/../../etc/passwd".toList).mp he
      simp only [demoFiles, List.mem_cons, List.mem_singleton, List.not_mem_nil,
        or_false] at hfn
      rcases hfn with h1 | h1
      · subst h1
        revert hc
        decide
      · subst h1
        revert hc
        decide
    · have hn : normalise cwd "/demo-kernel".toList
          = filepathJoin cwd "/demo-kernel".toList := by
        have : pathClean ('/' :: "/demo-kernel".toList) = "/demo-kernel".toList := by
          decide
        simp only [normalise, filepathFromSlash, this]
      have hm : normalise cwd "/demo-kernel".toList
          ∈ demoFiles.files.map (normalise cwd) := by
        refine List.mem_map.mpr ⟨"demo-kernel".toList, by simp [demoFiles], ?_⟩
        exact (normalise_inj cwd _ _).mpr (by decide)
      rw [open_eq, if_pos hm, hn]

/-- C2 at the working directory `/srv/boot`: the request `/demo-kernel` opens
`/srv/boot/demo-kernel`, which lies inside `/srv/boot`. -/
theorem C2_opened_path_safe_witness :
    "/srv/boot/demo-kernel".toList ∈
        (demoFiles.Open (Except.ok "/srv/boot".toList)
          (fun _ => (Except.ok () : Except Unit Unit)) "/demo-kernel".toList).1 ∧
      Inside "/srv/boot".toList "/srv/boot/demo-kernel".toList := by
  have hmem : "/srv/boot/demo-kernel".toList ∈
      (demoFiles.Open (Except.ok "/srv/boot".toList)
        (fun _ => (Except.ok () : Except Unit Unit)) "/demo-kernel".toList).1 := by
    decide
  obtain ⟨_, _, _, _, _, _, hin⟩ :=
    C2_opened_path_safe.1 Unit Unit demoFiles "/srv/boot".toList
      (fun _ => Except.ok ()) "/demo-kernel".toList "/srv/boot/demo-kernel".toList hmem
  have hc : pathClean "/srv/boot".toList = "/srv/boot".toList := by decide
  exact ⟨hmem, hc ▸ hin (by decide)⟩

/-! ## `sshHostKey`: the first matching line decides -/

theorem hostKeyLoop_eq {Key Err : Type} (parse : Str → Except Err Key) (host : Str)
    (lines : List Str) :
    hostKeyLoop parse host lines =
      match lines.find? (hostLine host) with
      | none => .ok none
      | some l =>
        match parse l with
        | .error e => .error (.parsing ((stringsSplitSpace l).getD 2 []) e)
        | .ok k => .ok (some k) := by
  induction lines with
  | nil => rfl
  | cons l ls ih =>
    rw [hostKeyLoop]
    by_cases h3 : (stringsSplitSpace l).length = 3
    · by_cases hc : stringsContains ((stringsSplitSpace l).getD 0 []) host = true
      · have hl : hostLine host l = true := by
          unfold hostLine
          rw [hc, decide_eq_true h3]
          rfl
        simp only [h3, ne_eq, not_true_eq_false, if_false, hc, if_true, List.find?_cons, hl]
      · have hl : hostLine host l = false := by
          unfold hostLine
          rw [Bool.eq_false_iff.mpr hc]
          exact Bool.and_false _
        simp only [h3, ne_eq, not_true_eq_false, if_false, hc, List.find?_cons, hl, ih]
        rfl
    · have hl : hostLine host l = false := by simp [hostLine, h3]
      simp only [ne_eq, h3, not_false_eq_true, if_true, List.find?_cons, hl, ih]

theorem sshHostKey_eq {Key Err : Type} (parse : Str → Except Err Key) (host : Str)
    (content : Str) :
    sshHostKey (.ok content) parse host =
      match (scanLines content).find? (hostLine host) with
      | none => .error (.noHostKey host)
      | some l => keyOfLine parse l := by
  simp only [sshHostKey, hostKeyLoop_eq]
  cases (scanLines content).find? (hostLine host) with
  | none => rfl
  | some l =>
    simp only [keyOfLine]
    cases parse l <;> rfl

theorem find_hostLine_filter (host : Str) (lines : List Str) :
    (lines.filter (fun l => decide ((stringsSplitSpace l).length = 3))).find? (hostLine host)
      = lines.find? (hostLine host) := by
  induction lines with
  | nil => rfl
  | cons l ls ih =>
    by_cases h3 : (stringsSplitSpace l).length = 3
    · simp only [List.filter_cons, h3, decide_True, if_true, List.find?_cons, ih]
    · have hl : hostLine host l = false := by simp [hostLine, h3]
      simp only [List.filter_cons, h3, decide_False, Bool.false_eq_true, if_false,
        List.find?_cons, hl, ih]

/-! ## The scanner reads the lines before the first overlong one -/

theorem maxScanTokenSize_pos : 0 < maxScanTokenSize := by
  unfold maxScanTokenSize
  omega

theorem textLines_noNewline (p : Str) (h : '\n' ∉ p) :
    textLines p = if p = [] then [] else [p] := by
  induction p with
  | nil => rfl
  | cons c cs ih =>
    have hc : c ≠ '\n' := fun e => h (by simp [e])
    have hcs : '\n' ∉ cs := fun e => h (by simp [e])
    rw [textLines, if_neg hc, ih hcs]
    by_cases hn : cs = []
    · simp [hn]
    · simp [hn]

theorem textLines_append_newline (p q : Str) (h : '\n' ∉ p) :
    textLines (p ++ '\n' :: q) = p :: textLines q := by
  induction p with
  | nil => simp [textLines]
  | cons c cs ih =>
    have hc : c ≠ '\n' := fun e => h (by simp [e])
    have hcs : '\n' ∉ cs := fun e => h (by simp [e])
    rw [List.cons_append, textLines, if_neg hc, ih hcs]
    rfl

/-- A text that starts with data free of newlines has a first line that starts with it. -/
theorem textLines_append_head (p q : Str) (h : '\n' ∉ p) (hne : p ≠ []) :
    ∃ l rest, textLines (p ++ q) = (p ++ l) :: rest := by
  induction p with
  | nil => exact absurd rfl hne
  | cons c cs ih =>
    have hc : c ≠ '\n' := fun e => h (by simp [e])
    have hcs : '\n' ∉ cs := fun e => h (by simp [e])
    rw [List.cons_append, textLines, if_neg hc]
    by_cases hn : cs = []
    · subst hn
      exact ⟨(textLines q).headD [], (textLines q).tail, rfl⟩
    · obtain ⟨l, rest, hl⟩ := ih hcs hn
      rw [hl]
      exact ⟨l, rest, rfl⟩

/-- The scanner, holding `cur`, yields the lines of the text made of `cur` and the rest of
the file, up to the first line that fills the buffer. -/
theorem scanAux_eq (content : Str) :
    ∀ cur : Str, '\n' ∉ cur → cur.length < maxScanTokenSize →
      scanAux cur content =
        ((textLines (cur ++ content)).takeWhile
          (fun l => decide (l.length < maxScanTokenSize))).map dropCR := by
  induction content with
  | nil =>
    intro cur hcur hlen
    rw [scanAux, List.append_nil, textLines_noNewline cur hcur]
    by_cases hn : cur = []
    · simp [hn]
    · simp [hn, List.takeWhile, hlen]
  | cons c cs ih =>
    intro cur hcur hlen
    rw [scanAux]
    by_cases hc : c = '\n'
    · subst hc
      rw [if_pos rfl, textLines_append_newline cur cs hcur, List.takeWhile_cons,
        decide_eq_true hlen, ih [] (by simp) maxScanTokenSize_pos]
      simp
    · rw [if_neg hc]
      have hp : '\n' ∉ cur ++ [c] := by
        intro hm
        rcases List.mem_append.mp hm with h1 | h1
        · exact hcur h1
        · exact hc (List.mem_singleton.mp h1).symm
      have happ : cur ++ c :: cs = (cur ++ [c]) ++ cs := by simp
      by_cases hfull : cur.length + 1 ≥ maxScanTokenSize
      · rw [if_pos hfull, happ]
        obtain ⟨l, rest, hl⟩ := textLines_append_head (cur ++ [c]) cs hp (by simp)
        have hlong : ¬ (cur ++ [c] ++ l).length < maxScanTokenSize := by
          simp only [List.length_append, List.length_singleton]
          omega
        rw [hl, List.takeWhile_cons, decide_eq_false hlong]
        rfl
      · rw [if_neg hfull, happ]
        exact ih (cur ++ [c]) hp (by
          simp only [List.length_append, List.length_singleton]
          omega)

theorem scanLines_eq (content : Str) : scanLines content = readLines content :=
  scanAux_eq content [] (by simp) maxScanTokenSize_pos

theorem stringsSplitSpace_noSpace (c : Str) (h : ' ' ∉ c) : stringsSplitSpace c = [c] := by
  induction c with
  | nil => rfl
  | cons x xs ih =>
    have hx : x ≠ ' ' := fun e => h (by simp [e])
    have hxs : ' ' ∉ xs := fun e => h (by simp [e])
    simp [stringsSplitSpace, hx, ih hxs]

theorem hostLine_fun (host : Str) :
    (fun l => decide ((stringsSplitSpace l).length = 3 ∧
      host <:+: (stringsSplitSpace l).getD 0 [])) = hostLine host := by
  funext l
  simp [hostLine, stringsContains, Bool.decide_and]

theorem longLine_length : longLine.length = 70000 := by
  unfold longLine
  exact List.length_replicate _ _

theorem longLine_free (c : Char) (hc : c ≠ 'a') : c ∉ longLine := by
  unfold longLine
  intro h
  exact hc (List.eq_of_mem_replicate h)

theorem textLines_longKnownHosts : textLines longKnownHosts = [longLine, gatewayLine] := by
  unfold longKnownHosts
  rw [textLines_append_newline longLine gatewayLine (longLine_free '\n' (by decide)),
    textLines_noNewline gatewayLine (by decide)]
  rfl

/-- C10 as stated fails: in this `known_hosts` file the first line with exactly three fields
whose first field contains the host is the second line, and it parses; but the first line
is longer than the buffer of the scanner, the scan stops there, and `sshHostKey` returns
`No hostkey`. -/
theorem C10_counterexample :
    textLines longKnownHosts = [longLine, gatewayLine] ∧
      (textLines longKnownHosts).find? (fun l => decide ((stringsSplitSpace l).length = 3 ∧
          "sos.ams1.packet.net".toList <:+: (stringsSplitSpace l).getD 0 []))
        = some gatewayLine ∧
      sshHostKey (.ok longKnownHosts) (fun l => (Except.ok l : Except Unit Str))
          "sos.ams1.packet.net".toList
        = .error (.noHostKey "sos.ams1.packet.net".toList) := by
  have hlong : hostLine "sos.ams1.packet.net".toList longLine = false := by
    unfold hostLine
    rw [stringsSplitSpace_noSpace longLine (longLine_free ' ' (by decide))]
    rfl
  have hgood : hostLine "sos.ams1.packet.net".toList gatewayLine = true := by
    decide
  refine ⟨textLines_longKnownHosts, ?_, ?_⟩
  · rw [hostLine_fun, textLines_longKnownHosts, List.find?_cons, hlong, List.find?_cons,
      hgood]
  · have hnot : ¬ longLine.length < maxScanTokenSize := by
      rw [longLine_length]
      unfold maxScanTokenSize
      omega
    have hread : scanLines longKnownHosts = [] := by
      rw [scanLines_eq, readLines, textLines_longKnownHosts, List.takeWhile_cons,
        decide_eq_false hnot]
      rfl
    rw [sshHostKey_eq, hread]
    rfl

/-- C10, amended: `sshHostKey` sees the lines of `known_hosts` that come before the first
line of 65536 bytes or more, each without its trailing carriage return. It returns what
parsing gives for the first of these lines that splits on single spaces into exactly three
fields and whose first field contains the host; it returns an error if and only if there is
no such line among them or that first line fails to parse; and the lines with another
number of fields can be removed without changing the result. -/
theorem C10_sshHostKey_first_read_match {Key Err : Type} (parse : Str → Except Err Key)
    (host : Str) (content : Str) :
    scanLines content = readLines content ∧
    (sshHostKey (.ok content) parse host =
      match (readLines content).find? (fun l => decide ((stringsSplitSpace l).length = 3 ∧
          host <:+: (stringsSplitSpace l).getD 0 [])) with
      | none => .error (.noHostKey host)
      | some l =>
        match parse l with
        | .error e => .error (.parsing ((stringsSplitSpace l).getD 2 []) e)
        | .ok k => .ok k) ∧
    ((∃ e, sshHostKey (.ok content) parse host = .error e) ↔
      ((readLines content).find? (fun l => decide ((stringsSplitSpace l).length = 3 ∧
          host <:+: (stringsSplitSpace l).getD 0 [])) = none ∨
        ∃ l e, (readLines content).find? (fun l => decide ((stringsSplitSpace l).length = 3 ∧
          host <:+: (stringsSplitSpace l).getD 0 [])) = some l ∧ parse l = .error e)) ∧
    (sshHostKey (.ok content) parse host =
      match ((readLines content).filter
          (fun l => decide ((stringsSplitSpace l).length = 3))).find?
          (fun l => decide ((stringsSplitSpace l).length = 3 ∧
            host <:+: (stringsSplitSpace l).getD 0 [])) with
      | none => .error (.noHostKey host)
      | some l =>
        match parse l with
        | .error e => .error (.parsing ((stringsSplitSpace l).getD 2 []) e)
        | .ok k => .ok k) := by
  rw [hostLine_fun, find_hostLine_filter, sshHostKey_eq, scanLines_eq]
  refine ⟨rfl, ?_, ?_, ?_⟩
  · cases (readLines content).find? (hostLine host) with
    | none => rfl
    | some l => simp only [keyOfLine]
  · cases hf : (readLines content).find? (hostLine host) with
    | none => simp
    | some l =>
      simp only [keyOfLine]
      cases hp : parse l with
      | error e => simp [hp]
      | ok k => simp [hp]
  · cases (readLines content).find? (hostLine host) with
    | none => rfl
    | some l => simp only [keyOfLine]

/-! ## The sample run -/

/-- The sample run, in full. -/
theorem runPacket_sample :
    runPacket (demoEnv demoFlags) [] =
      ([.head "http://boot.test/img/demo-kernel".toList,
        .head "http://boot.test/img/demo-initrd.img".toList,
        .create (createRequest demoSettings),
        .sshDial "sos.ams1.packet.net:22".toList "d1".toList, .requestPty 80 24,
        .terminalRestore, .sessionClose, .delete "d1".toList], .returned) := by
  rfl

/-! ## `runPacket`: configuration -/

/-- What a successful `resolve` tells about the flags and the world. -/
theorem resolve_ok (env : Env) (args : List Str) (s : Settings)
    (h : resolve env args = .ok s) :
    ∃ fl, env.parse args = some fl ∧ s.keepFlag = fl.keepFlag ∧
      s.consoleFlag = fl.consoleFlag ∧ s.serveFlag = fl.serveFlag ∧
      ¬ (fl.keepFlag = false ∧ fl.consoleFlag = false) ∧
      s.url = env.getStringValue packetBaseURL fl.baseURLFlag [] ∧
      s.name = env.getStringValue packetNameVar fl.nameFlag s.namePrefix ∧
      env.readFile (s.namePrefix ++ "-cmdline".toList) = some s.cmdline := by
  unfold resolve at h
  cases hp : env.parse args with
  | none => rw [hp] at h; cases h
  | some fl =>
    rw [hp] at h
    simp only [] at h
    generalize (if fl.remArgs.length > 0 then fl.remArgs.headD [] else "packet".toList)
      = np at h
    split_ifs at h with h1 h2 h3 h4
    split at h
    · cases h
    · rename_i c hc
      cases h
      exact ⟨fl, rfl, rfl, rfl, rfl, h4, rfl, rfl, hc⟩

theorem resolve_keep_console (env : Env) (args : List Str) (fl : Flags)
    (hp : env.parse args = some fl) (hk : fl.keepFlag = false)
    (hc : fl.consoleFlag = false) : ∃ f, resolve env args = .error f := by
  cases hr : resolve env args with
  | error f => exact ⟨f, rfl⟩
  | ok s =>
    obtain ⟨fl', hp', _, _, _, hno, _⟩ := resolve_ok env args s hr
    rw [hp] at hp'
    cases hp'
    exact absurd ⟨hk, hc⟩ hno

/-- C5: for every input with `keep=false` and `console=false` the run ends in a fatal call
and nothing has been done before it: no HTTP listener is started, no `HEAD` request is
issued, no device is created or deleted. -/
theorem C5_keep_console_abort (env : Env) (args : List Str) (fl : Flags)
    (hp : env.parse args = some fl) (hk : fl.keepFlag = false)
    (hc : fl.consoleFlag = false) :
    (∃ f, (runPacket env args).2 = .fatal f) ∧ (runPacket env args).1 = [] := by
  obtain ⟨f, hf⟩ := resolve_keep_console env args fl hp hk hc
  have hrun : runPacket env args = ([], .fatal f) := by simp only [runPacket, hf]
  rw [hrun]
  exact ⟨⟨f, rfl⟩, rfl⟩

/-- C5 on the sample run with `-console=false`: the run ends at the check of `keep` against
`console`, with no event. -/
theorem C5_keep_console_abort_witness :
    (demoEnv { demoFlags with consoleFlag := false }).parse []
        = some { demoFlags with consoleFlag := false } ∧
      (∃ f, (runPacket (demoEnv { demoFlags with consoleFlag := false }) []).2 = .fatal f) ∧
      (runPacket (demoEnv { demoFlags with consoleFlag := false }) []).1 = [] :=
  ⟨rfl, C5_keep_console_abort (demoEnv { demoFlags with consoleFlag := false }) []
    { demoFlags with consoleFlag := false } rfl rfl rfl⟩

/-! ## `runPacket`: asset validation and device creation -/

theorem validate_fail (env : Env) (url : Str) (h : headFails (env.httpHead url) = true) :
    ∃ f, validateHTTPURL env url = ([.head url], some f) := by
  unfold validateHTTPURL
  cases hh : env.httpHead url with
  | transportError => exact ⟨_, rfl⟩
  | status code =>
    rw [hh] at h
    have hc : code ≥ 400 := by simpa [headFails] using h
    exact ⟨.headStatus, by simp [hc]⟩

theorem validate_pass (env : Env) (url : Str) (h : headFails (env.httpHead url) = false) :
    validateHTTPURL env url = ([.head url], none) := by
  unfold validateHTTPURL
  cases hh : env.httpHead url with
  | transportError => rw [hh] at h; cases h
  | status code =>
    rw [hh] at h
    have hc : ¬ code ≥ 400 := by simpa [headFails] using h
    simp [hc]

theorem serveEvents_listen (s : Settings) : ∀ e ∈ serveEvents s, e.isListen = true := by
  intro e he
  unfold serveEvents at he
  split_ifs at he
  · simp at he
    rw [he]
    rfl
  · simp at he

theorem provision_kernel_fail (env : Env) (s : Settings)
    (h : headFails (env.httpHead (kernelURL s.url s.name)) = true) :
    ∃ f, provision env s = (serveEvents s ++ [.head (kernelURL s.url s.name)], .fatal f) := by
  obtain ⟨f, hf⟩ := validate_fail env _ h
  exact ⟨f, by simp only [provision, hf]⟩

theorem provision_initrd_fail (env : Env) (s : Settings)
    (hk : headFails (env.httpHead (kernelURL s.url s.name)) = false)
    (h : headFails (env.httpHead (initrdURL s.url s.name)) = true) :
    ∃ f, provision env s = (serveEvents s ++ [.head (kernelURL s.url s.name)]
      ++ [.head (initrdURL s.url s.name)], .fatal f) := by
  obtain ⟨f, hf⟩ := validate_fail env _ h
  exact ⟨f, by simp only [provision, hf, validate_pass env _ hk]⟩

/-- The run once both asset URLs have passed the check. -/
theorem provision_pass (env : Env) (s : Settings)
    (hk : headFails (env.httpHead (kernelURL s.url s.name)) = false)
    (hi : headFails (env.httpHead (initrdURL s.url s.name)) = false) :
    provision env s =
      match env.devicesCreate (createRequest s) with
      | none =>
        (serveEvents s ++ [.head (kernelURL s.url s.name)]
          ++ [.head (initrdURL s.url s.name)] ++ [.create (createRequest s)], .fatal .create)
      | some dev =>
        if env.marshalIndent dev = false then
          (serveEvents s ++ [.head (kernelURL s.url s.name)]
            ++ [.head (initrdURL s.url s.name)] ++ [.create (createRequest s)],
            .fatal .marshal)
        else
          (serveEvents s ++ [.head (kernelURL s.url s.name)]
            ++ [.head (initrdURL s.url s.name)] ++ [.create (createRequest s)]
            ++ (afterCreate env s dev).1, (afterCreate env s dev).2) := by
  simp only [provision, validate_pass env _ hk, validate_pass env _ hi]

theorem not_create_of_listen (e : Event) (h : e.isListen = true) : e.isCreate = false := by
  cases e <;> simp_all [Event.isListen, Event.isCreate]

/-- C6: in every run that reaches asset validation, if the `HEAD` request for the kernel
URL or for the initrd URL fails or answers with a status code of 400 or more, the run ends
in a fatal call and no device-create call is made; if both answer below 400, the
device-create call is made. -/
theorem C6_asset_validation (env : Env) (args : List Str) (s : Settings)
    (hr : resolve env args = .ok s) :
    ((headFails (env.httpHead (kernelURL s.url s.name)) = true ∨
        headFails (env.httpHead (initrdURL s.url s.name)) = true) →
      (∃ f, (runPacket env args).2 = .fatal f) ∧
        ∀ req, Event.create req ∉ (runPacket env args).1) ∧
    (headFails (env.httpHead (kernelURL s.url s.name)) = false →
      headFails (env.httpHead (initrdURL s.url s.name)) = false →
      Event.create (createRequest s) ∈ (runPacket env args).1) := by
  have hrun : runPacket env args = provision env s := by simp only [runPacket, hr]
  rw [hrun]
  have hserve : ∀ req, Event.create req ∉ serveEvents s := by
    intro req hmem
    have := not_create_of_listen _ (serveEvents_listen s _ hmem)
    simp [Event.isCreate] at this
  constructor
  · intro h
    by_cases hk : headFails (env.httpHead (kernelURL s.url s.name)) = true
    · obtain ⟨f, hf⟩ := provision_kernel_fail env s hk
      rw [hf]
      refine ⟨⟨f, rfl⟩, ?_⟩
      intro req hmem
      simp only [List.mem_append, List.mem_singleton] at hmem
      rcases hmem with h1 | h1
      · exact hserve req h1
      · cases h1
    · have hk' : headFails (env.httpHead (kernelURL s.url s.name)) = false := by
        simpa using hk
      have hi : headFails (env.httpHead (initrdURL s.url s.name)) = true := by
        rcases h with h | h
        · exact absurd h hk
        · exact h
      obtain ⟨f, hf⟩ := provision_initrd_fail env s hk' hi
      rw [hf]
      refine ⟨⟨f, rfl⟩, ?_⟩
      intro req hmem
      simp only [List.mem_append, List.mem_singleton] at hmem
      rcases hmem with (h1 | h1) | h1
      · exact hserve req h1
      · cases h1
      · cases h1
  · intro hk hi
    rw [provision_pass env s hk hi]
    cases env.devicesCreate (createRequest s) with
    | none => simp
    | some dev =>
      by_cases hm : env.marshalIndent dev = false
      · simp [hm]
      · simp [hm]

/-- C6 on the sample run when every `HEAD` request answers 404: the run ends in a fatal
call before any device-create call. -/
theorem C6_asset_validation_witness :
    resolve { demoEnv demoFlags with httpHead := fun _ => .status 404 } [] = .ok demoSettings ∧
      headFails (({ demoEnv demoFlags with httpHead := fun _ => .status 404 } : Env).httpHead
        (kernelURL demoSettings.url demoSettings.name)) = true ∧
      (∃ f, (runPacket { demoEnv demoFlags with httpHead := fun _ => .status 404 } []).2
        = .fatal f) ∧
      ∀ req, Event.create req ∉
        (runPacket { demoEnv demoFlags with httpHead := fun _ => .status 404 } []).1 :=
  ⟨rfl, rfl, (C6_asset_validation { demoEnv demoFlags with httpHead := fun _ => .status 404 } []
    demoSettings rfl).1 (Or.inl rfl)⟩

/-- C7, the code at the failing input `-serve 127.0.0.1:9000`: the server that the run
starts has the address `:8080`, which is not the value of the flag. -/
theorem C7_listen_address_is_8080 :
    (runPacket (demoEnv { demoFlags with serveFlag := "127.0.0.1:9000".toList }) []).1.head?
        = some (.listen ":8080".toList demoFiles) ∧
      ":8080".toList ≠ "127.0.0.1:9000".toList := by
  constructor
  · rfl
  · decide

/-! ## `runPacket`: console and cleanup -/

theorem sshSOS_console (env : Env) (user host : Str) :
    (sshSOS env user host).1.all Event.isConsole = true := by
  unfold sshSOS
  split
  · rfl
  · simp only []
    split_ifs <;> rfl

theorem filter_eq_nil_of_all (l : List Event) (p q : Event → Bool)
    (hl : ∀ e ∈ l, p e = true) (hpq : ∀ e, p e = true → q e = false) : l.filter q = [] := by
  rw [List.filter_eq_nil_iff]
  intro e he
  simp [hpq e (hl e he)]

theorem sshSOS_mem (env : Env) (user host : Str) :
    ∀ e ∈ (sshSOS env user host).1, e.isConsole = true := by
  have h := sshSOS_console env user host
  rw [List.all_eq_true] at h
  exact h

theorem cleanup_keep (env : Env) (s : Settings) (dev : Device) (hk : s.keepFlag = true) :
    cleanup env s dev = (shutdownEvents s, .returned) := by
  simp [cleanup, shutdownEvents, hk]

theorem cleanup_delete (env : Env) (s : Settings) (dev : Device) (hk : s.keepFlag = false) :
    cleanup env s dev = (shutdownEvents s ++ [.delete dev.id],
      if env.devicesDelete dev.id = false then .fatal .delete else .returned) := by
  simp only [cleanup, shutdownEvents, hk]
  split_ifs <;> rfl

/-- The run after a successful device-create call whose response is marshalled. -/
theorem runPacket_created (env : Env) (args : List Str) (s : Settings) (dev : Device)
    (hr : resolve env args = .ok s)
    (hk : headFails (env.httpHead (kernelURL s.url s.name)) = false)
    (hi : headFails (env.httpHead (initrdURL s.url s.name)) = false)
    (hc : env.devicesCreate (createRequest s) = some dev)
    (hm : env.marshalIndent dev = true) :
    runPacket env args
      = (createdEvents s ++ (afterCreate env s dev).1, (afterCreate env s dev).2) := by
  have hrun : runPacket env args = provision env s := by simp only [runPacket, hr]
  rw [hrun, provision_pass env s hk hi, hc]
  simp [hm, createdEvents]

/-- The console session returned `nil`: the cleanup follows. -/
theorem afterCreate_console_ok (env : Env) (s : Settings) (dev : Device)
    (hc : s.consoleFlag = true)
    (hs : (sshSOS env dev.id (sshHost dev)).2 = .returned none) :
    afterCreate env s dev
      = ((sshSOS env dev.id (sshHost dev)).1 ++ (cleanup env s dev).1,
          (cleanup env s dev).2) := by
  unfold afterCreate
  rw [if_pos hc]
  generalize sshSOS env dev.id (sshHost dev) = r at hs
  obtain ⟨t, o⟩ := r
  simp only at hs
  subst hs
  rfl

/-- The console session returned an error: the process ends there. -/
theorem afterCreate_console_err (env : Env) (s : Settings) (dev : Device)
    (hc : s.consoleFlag = true) (e : SOSError)
    (hs : (sshSOS env dev.id (sshHost dev)).2 = .returned (some e)) :
    afterCreate env s dev = ((sshSOS env dev.id (sshHost dev)).1, .fatal .console) := by
  unfold afterCreate
  rw [if_pos hc]
  generalize sshSOS env dev.id (sshHost dev) = r at hs
  obtain ⟨t, o⟩ := r
  simp only at hs
  subst hs
  rfl

/-- A run that is told to keep the device deletes nothing after the device-create call. -/
theorem afterCreate_keep (env : Env) (s : Settings) (dev : Device) (hk : s.keepFlag = true) :
    ∀ e ∈ (afterCreate env s dev).1, e.isDelete = false := by
  have hcl : ∀ e ∈ (cleanup env s dev).1, e.isDelete = false := by
    rw [cleanup_keep env s dev hk]
    intro e he
    simp only [shutdownEvents] at he
    split_ifs at he
    · simp at he
      rw [he]
      rfl
    · simp at he
  have hsos : ∀ e ∈ (sshSOS env dev.id (sshHost dev)).1, e.isDelete = false := by
    intro e he
    have := sshSOS_mem env _ _ e he
    cases e <;> simp_all [Event.isConsole, Event.isDelete]
  intro e he
  unfold afterCreate at he
  split_ifs at he with h1 h2 h3
  · generalize hg : sshSOS env dev.id (sshHost dev) = r at he hsos
    obtain ⟨t, o⟩ := r
    cases o with
    | returned err =>
      cases err with
      | none =>
        simp only [List.mem_append] at he
        rcases he with h | h
        · exact hsos e h
        · exact hcl e h
      | some x => exact hsos e he
    | fatal => exact hsos e he
    | blocked => exact hsos e he
  · simp at he
    rw [he]
    rfl
  · simp only [List.mem_cons] at he
    rcases he with h | h
    · rw [h]
      rfl
    · exact hcl e h
  · exact hcl e he

/-- The kinds of events after the device-create call. -/
theorem afterCreate_mem (env : Env) (s : Settings) (dev : Device) :
    ∀ e ∈ (afterCreate env s dev).1,
      e.isConsole = true ∨ e = .waitInterrupt ∨ e = .shutdown ∨ e = .delete dev.id := by
  have hcl : ∀ e ∈ (cleanup env s dev).1, e = .shutdown ∨ e = .delete dev.id := by
    intro e he
    unfold cleanup at he
    simp only [] at he
    split_ifs at he <;> simp at he <;> tauto
  have hsos := sshSOS_mem env dev.id (sshHost dev)
  intro e he
  unfold afterCreate at he
  split_ifs at he with h1 h2 h3
  · generalize sshSOS env dev.id (sshHost dev) = r at he hsos
    obtain ⟨t, o⟩ := r
    cases o with
    | returned err =>
      cases err with
      | none =>
        simp only [List.mem_append] at he
        rcases he with h | h
        · exact Or.inl (hsos e h)
        · exact Or.inr (Or.inr (hcl e h))
      | some x => exact Or.inl (hsos e he)
    | fatal => exact Or.inl (hsos e he)
    | blocked => exact Or.inl (hsos e he)
  · simp at he
    exact Or.inr (Or.inl he)
  · simp only [List.mem_cons] at he
    rcases he with h | h
    · exact Or.inr (Or.inl h)
    · exact Or.inr (Or.inr (hcl e h))
  · exact Or.inr (Or.inr (hcl e he))

theorem afterCreate_console_returned (env : Env) (s : Settings) (dev : Device)
    (hc : s.consoleFlag = true) (h : (afterCreate env s dev).2 = .returned) :
    (sshSOS env dev.id (sshHost dev)).2 = .returned none := by
  unfold afterCreate at h
  rw [if_pos hc] at h
  generalize sshSOS env dev.id (sshHost dev) = r at h
  obtain ⟨t, o⟩ := r
  cases o with
  | returned err =>
    cases err with
    | none => rfl
    | some x => cases h
  | fatal => cases h
  | blocked => cases h

theorem createdEvents_mem (s : Settings) :
    ∀ e ∈ createdEvents s, e.isListen = true ∨ e = .head (kernelURL s.url s.name) ∨
      e = .head (initrdURL s.url s.name) ∨ e = .create (createRequest s) := by
  intro e he
  simp only [createdEvents, List.mem_append, List.mem_singleton] at he
  rcases he with ((h | h) | h) | h
  · exact Or.inl (serveEvents_listen s e h)
  · exact Or.inr (Or.inl h)
  · exact Or.inr (Or.inr (Or.inl h))
  · exact Or.inr (Or.inr (Or.inr h))

/-- A run from `provision` on either ends in a fatal call no later than the device-create
call, or goes on after a successful device-create call. -/
theorem provision_cases (env : Env) (s : Settings) :
    ((∃ f, (provision env s).2 = .fatal f) ∧ ∀ e ∈ (provision env s).1, e ∈ createdEvents s) ∨
    (∃ dev, headFails (env.httpHead (kernelURL s.url s.name)) = false ∧
      headFails (env.httpHead (initrdURL s.url s.name)) = false ∧
      env.devicesCreate (createRequest s) = some dev ∧ env.marshalIndent dev = true ∧
      provision env s
        = (createdEvents s ++ (afterCreate env s dev).1, (afterCreate env s dev).2)) := by
  by_cases hk : headFails (env.httpHead (kernelURL s.url s.name)) = true
  · obtain ⟨f, hf⟩ := provision_kernel_fail env s hk
    left
    rw [hf]
    refine ⟨⟨f, rfl⟩, ?_⟩
    intro e he
    simp only [createdEvents, List.mem_append, List.mem_singleton] at he ⊢
    tauto
  · have hk' : headFails (env.httpHead (kernelURL s.url s.name)) = false := by simpa using hk
    by_cases hi : headFails (env.httpHead (initrdURL s.url s.name)) = true
    · obtain ⟨f, hf⟩ := provision_initrd_fail env s hk' hi
      left
      rw [hf]
      refine ⟨⟨f, rfl⟩, ?_⟩
      intro e he
      simp only [createdEvents, List.mem_append, List.mem_singleton] at he ⊢
      tauto
    · have hi' : headFails (env.httpHead (initrdURL s.url s.name)) = false := by
        simpa using hi
      rw [provision_pass env s hk' hi']
      cases hc : env.devicesCreate (createRequest s) with
      | none =>
        left
        exact ⟨⟨_, rfl⟩, fun e he => he⟩
      | some dev =>
        by_cases hm : env.marshalIndent dev = false
        · left
          simp only [hm, if_true]
          exact ⟨⟨_, rfl⟩, fun e he => he⟩
        · right
          refine ⟨dev, hk', hi', rfl, by simpa using hm, ?_⟩
          show (if env.marshalIndent dev = false then _ else _) = _
          rw [if_neg hm]
          rfl

theorem createdEvents_filter_delete (s : Settings) :
    (createdEvents s).filter Event.isDelete = [] := by
  rw [List.filter_eq_nil_iff]
  intro e he
  rcases createdEvents_mem s e he with h | h | h | h
  · cases e <;> simp_all [Event.isListen, Event.isDelete]
  · rw [h]; simp [Event.isDelete]
  · rw [h]; simp [Event.isDelete]
  · rw [h]; simp [Event.isDelete]

theorem sshSOS_filter_delete (env : Env) (user host : Str) :
    (sshSOS env user host).1.filter Event.isDelete = [] :=
  filter_eq_nil_of_all _ Event.isConsole _ (sshSOS_mem env user host)
    (fun e h => by cases e <;> simp_all [Event.isConsole, Event.isDelete])

theorem shutdownEvents_filter_delete (s : Settings) :
    (shutdownEvents s).filter Event.isDelete = [] := by
  unfold shutdownEvents
  split_ifs <;> rfl

/-- C9: in every run with `keep=true` no device-delete call is made, whatever the console
flag is and however the console session ends; and in every run with `keep=false` in which
`runPacket` returns, exactly one device-delete call is made, for the identifier of the
device that the device-create call returned. -/
theorem C9_delete_unless_keep :
    (∀ (env : Env) (args : List Str) (fl : Flags), env.parse args = some fl →
        fl.keepFlag = true → ∀ id, Event.delete id ∉ (runPacket env args).1) ∧
    (∀ (env : Env) (args : List Str) (fl : Flags), env.parse args = some fl →
        fl.keepFlag = false → (runPacket env args).2 = .returned →
        ∃ req dev, Event.create req ∈ (runPacket env args).1 ∧
          env.devicesCreate req = some dev ∧
          (runPacket env args).1.filter Event.isDelete = [.delete dev.id]) := by
  constructor
  · intro env args fl hp hkeep id hmem
    cases hr : resolve env args with
    | error f =>
      have hrun : runPacket env args = ([], .fatal f) := by simp only [runPacket, hr]
      rw [hrun] at hmem
      cases hmem
    | ok s =>
      obtain ⟨fl', hp', hk', _⟩ := resolve_ok env args s hr
      rw [hp] at hp'
      cases hp'
      have hsk : s.keepFlag = true := hk'.trans hkeep
      have hrun : runPacket env args = provision env s := by simp only [runPacket, hr]
      rw [hrun] at hmem
      have hcr : Event.delete id ∉ createdEvents s := by
        intro h
        have := List.mem_filter.mpr ⟨h, (rfl : (Event.delete id).isDelete = true)⟩
        rw [createdEvents_filter_delete] at this
        cases this
      rcases provision_cases env s with ⟨_, hall⟩ | ⟨dev, _, _, _, _, heq⟩
      · exact hcr (hall _ hmem)
      · rw [heq] at hmem
        simp only [List.mem_append] at hmem
        rcases hmem with h | h
        · exact hcr h
        · have := afterCreate_keep env s dev hsk _ h
          simp [Event.isDelete] at this
  · intro env args fl hp hkeep hret
    cases hr : resolve env args with
    | error f =>
      have hrun : runPacket env args = ([], .fatal f) := by simp only [runPacket, hr]
      rw [hrun] at hret
      cases hret
    | ok s =>
      obtain ⟨fl', hp', hk', hc', _, hno, _⟩ := resolve_ok env args s hr
      rw [hp] at hp'
      cases hp'
      have hsk : s.keepFlag = false := hk'.trans hkeep
      have hsc : s.consoleFlag = true := by
        rw [hc']
        cases hcf : fl.consoleFlag with
        | true => rfl
        | false => exact absurd ⟨hkeep, hcf⟩ hno
      have hrun : runPacket env args = provision env s := by simp only [runPacket, hr]
      rw [hrun] at hret ⊢
      rcases provision_cases env s with ⟨⟨f, hf⟩, _⟩ | ⟨dev, _, _, hcreate, _, heq⟩
      · rw [hf] at hret
        cases hret
      · rw [heq] at hret ⊢
        have hsos := afterCreate_console_returned env s dev hsc hret
        rw [afterCreate_console_ok env s dev hsc hsos, cleanup_delete env s dev hsk]
        refine ⟨createRequest s, dev, ?_, hcreate, ?_⟩
        · simp [createdEvents]
        · simp only [List.filter_append, createdEvents_filter_delete,
            sshSOS_filter_delete, shutdownEvents_filter_delete, List.nil_append]
          rfl

/-- C9 on the sample runs: with `-keep` nothing is deleted; without it the run returns
after one delete call for the device `d1` that the create call returned. -/
theorem C9_delete_unless_keep_witness :
    (demoEnv { demoFlags with keepFlag := true }).parse []
        = some { demoFlags with keepFlag := true } ∧
      Event.delete "d1".toList ∉ (runPacket (demoEnv { demoFlags with keepFlag := true }) []).1 ∧
      (runPacket (demoEnv demoFlags) []).2 = .returned ∧
      ∃ req dev, Event.create req ∈ (runPacket (demoEnv demoFlags) []).1 ∧
        (demoEnv demoFlags).devicesCreate req = some dev ∧
        (runPacket (demoEnv demoFlags) []).1.filter Event.isDelete = [.delete dev.id] :=
  ⟨rfl, C9_delete_unless_keep.1 (demoEnv { demoFlags with keepFlag := true }) []
      { demoFlags with keepFlag := true } rfl rfl "d1".toList,
    rfl, C9_delete_unless_keep.2 (demoEnv demoFlags) [] demoFlags rfl rfl rfl⟩

/-- C3 as stated fails: in a run with `keep=false` and `console=true` in which the listener
was started and the device created, `sshSOS` returns an error and the process ends at once;
neither the listener shutdown nor a device-delete call is made. -/
theorem C3_counterexample :
    (∃ req, Event.create req ∈ (runPacket noHostKeyEnv []).1 ∧
        noHostKeyEnv.devicesCreate req = some demoDevice) ∧
      Event.listen ":8080".toList demoFiles ∈ (runPacket noHostKeyEnv []).1 ∧
      (sshSOS noHostKeyEnv demoDevice.id (sshHost demoDevice)).2
        = .returned (some (.hostKey (.noHostKey "sos.ams1.packet.net".toList))) ∧
      (runPacket noHostKeyEnv []).2 = .fatal .console ∧
      Event.shutdown ∉ (runPacket noHostKeyEnv []).1 ∧
      Event.delete demoDevice.id ∉ (runPacket noHostKeyEnv []).1 := by
  have h : runPacket noHostKeyEnv [] =
      ([.listen ":8080".toList demoFiles, .head "http://boot.test/img/demo-kernel".toList,
        .head "http://boot.test/img/demo-initrd.img".toList,
        .create (createRequest serveSettings)], .fatal .console) := rfl
  rw [h]
  refine ⟨⟨createRequest serveSettings, by simp, rfl⟩, by simp, rfl, rfl, by simp, by simp⟩

/-- C3, amended: in a run with `keep=false` and `console=true` in which the device has been
created, if `sshSOS` returns without error the listener (when one was started) is shut down
and then the device-delete call is made for the created device; if `sshSOS` returns an
error the process ends at once, with no shutdown and no device-delete call. -/
theorem C3_cleanup_after_console (env : Env) (args : List Str) (s : Settings) (dev : Device)
    (hr : resolve env args = .ok s)
    (hk : headFails (env.httpHead (kernelURL s.url s.name)) = false)
    (hi : headFails (env.httpHead (initrdURL s.url s.name)) = false)
    (hc : env.devicesCreate (createRequest s) = some dev)
    (hm : env.marshalIndent dev = true)
    (hkeep : s.keepFlag = false) (hcon : s.consoleFlag = true) :
    ((sshSOS env dev.id (sshHost dev)).2 = .returned none →
      (runPacket env args).1 = createdEvents s ++ (sshSOS env dev.id (sshHost dev)).1
        ++ shutdownEvents s ++ [.delete dev.id]) ∧
    (∀ e, (sshSOS env dev.id (sshHost dev)).2 = .returned (some e) →
      runPacket env args
        = (createdEvents s ++ (sshSOS env dev.id (sshHost dev)).1, .fatal .console) ∧
      Event.shutdown ∉ (runPacket env args).1 ∧
      ∀ id, Event.delete id ∉ (runPacket env args).1) := by
  have hrun := runPacket_created env args s dev hr hk hi hc hm
  constructor
  · intro hs
    rw [hrun, afterCreate_console_ok env s dev hcon hs, cleanup_delete env s dev hkeep]
    simp only [List.append_assoc]
  · intro e hs
    rw [hrun, afterCreate_console_err env s dev hcon e hs]
    refine ⟨rfl, ?_, ?_⟩
    · intro hmem
      simp only [List.mem_append] at hmem
      rcases hmem with h | h
      · rcases createdEvents_mem s _ h with h1 | h1 | h1 | h1
        · simp [Event.isListen] at h1
        · cases h1
        · cases h1
        · cases h1
      · have := sshSOS_mem env _ _ _ h
        simp [Event.isConsole] at this
    · intro id hmem
      simp only [List.mem_append] at hmem
      rcases hmem with h | h
      · rcases createdEvents_mem s _ h with h1 | h1 | h1 | h1
        · simp [Event.isListen] at h1
        · cases h1
        · cases h1
        · cases h1
      · have := sshSOS_mem env _ _ _ h
        simp [Event.isConsole] at this

/-- C3, amended, on the sample run: the console session returns without error and the
device `d1` is deleted at the end. -/
theorem C3_cleanup_after_console_witness :
    resolve (demoEnv demoFlags) [] = .ok demoSettings ∧
      (demoEnv demoFlags).devicesCreate (createRequest demoSettings) = some demoDevice ∧
      (sshSOS (demoEnv demoFlags) demoDevice.id (sshHost demoDevice)).2 = .returned none ∧
      (runPacket (demoEnv demoFlags) []).1
        = createdEvents demoSettings
          ++ (sshSOS (demoEnv demoFlags) demoDevice.id (sshHost demoDevice)).1
          ++ shutdownEvents demoSettings ++ [.delete demoDevice.id] :=
  ⟨rfl, rfl, rfl,
    (C3_cleanup_after_console (demoEnv demoFlags) [] demoSettings demoDevice rfl rfl rfl rfl
      rfl rfl rfl).1 rfl⟩

/-- C4 as stated fails: with a valid full configuration, both asset URLs answering 200,
`console=false`, `serve=""` and `keep` at its default, the run ends at the check of `keep`
against `console`; no device-create call is made. -/
theorem C4_counterexample :
    (demoEnv { demoFlags with consoleFlag := false }).httpHead
        (kernelURL demoSettings.url demoSettings.name) = .status 200 ∧
      (demoEnv { demoFlags with consoleFlag := false }).httpHead
        (initrdURL demoSettings.url demoSettings.name) = .status 200 ∧
      runPacket (demoEnv { demoFlags with consoleFlag := false }) []
        = ([], .fatal .keepConsole) ∧
      ((runPacket (demoEnv { demoFlags with consoleFlag := false }) []).1.filter
        Event.isCreate).length ≠ 1 := by
  refine ⟨rfl, rfl, rfl, ?_⟩
  have h : runPacket (demoEnv { demoFlags with consoleFlag := false }) []
      = ([], .fatal .keepConsole) := rfl
  rw [h]
  decide

theorem userData_eq (u c n : Str) :
    userData u c n = "#!ipxe\n\ndhcp\nset base-url ".toList ++ u
      ++ "\nset kernel-params ip=dhcp nomodeset ro serial console=ttyS1,115200 ".toList ++ c
      ++ "\nkernel $\x7bbase-url\x7d/".toList ++ n
      ++ "-kernel $\x7bkernel-params\x7d\ninitrd $\x7bbase-url\x7d/".toList ++ n
      ++ "-initrd.img\nboot".toList := by
  simp only [userData, List.append_assoc]
  rfl

/-- C4, amended: with a valid full configuration, `console=true` and a console session that
returns without error, `serve=""` and `keep=false`, both asset URLs answering 200 and a
device-create call that succeeds, the run makes exactly one device-create call, whose user
data contains `dhcp` and the kernel-params line, then exactly one device-delete call, for
the created device, and it starts no HTTP server. -/
theorem C4_create_then_delete (env : Env) (args : List Str) (s : Settings) (dev : Device)
    (hr : resolve env args = .ok s)
    (hcon : s.consoleFlag = true) (hserve : s.serveFlag = []) (hkeep : s.keepFlag = false)
    (hk : env.httpHead (kernelURL s.url s.name) = .status 200)
    (hi : env.httpHead (initrdURL s.url s.name) = .status 200)
    (hc : env.devicesCreate (createRequest s) = some dev)
    (hm : env.marshalIndent dev = true)
    (hs : (sshSOS env dev.id (sshHost dev)).2 = .returned none) :
    (runPacket env args).1
        = [.head (kernelURL s.url s.name), .head (initrdURL s.url s.name),
            .create (createRequest s)]
          ++ (sshSOS env dev.id (sshHost dev)).1 ++ [.delete dev.id] ∧
      (runPacket env args).1.filter Event.isCreate = [.create (createRequest s)] ∧
      (runPacket env args).1.filter Event.isDelete = [.delete dev.id] ∧
      (runPacket env args).1.filter Event.isListen = [] ∧
      "dhcp".toList <:+: (createRequest s).userData ∧
      ("set kernel-params ip=dhcp nomodeset ro serial console=ttyS1,115200 ".toList
        ++ s.cmdline) <:+: (createRequest s).userData := by
  have hk' : headFails (env.httpHead (kernelURL s.url s.name)) = false := by rw [hk]; rfl
  have hi' : headFails (env.httpHead (initrdURL s.url s.name)) = false := by rw [hi]; rfl
  have hrun := runPacket_created env args s dev hr hk' hi' hc hm
  have htrace : (runPacket env args).1
      = [.head (kernelURL s.url s.name), .head (initrdURL s.url s.name),
          .create (createRequest s)]
        ++ (sshSOS env dev.id (sshHost dev)).1 ++ [.delete dev.id] := by
    rw [hrun, afterCreate_console_ok env s dev hcon hs, cleanup_delete env s dev hkeep]
    simp [createdEvents, serveEvents, shutdownEvents, hserve]
  have hsosC : (sshSOS env dev.id (sshHost dev)).1.filter Event.isCreate = [] :=
    filter_eq_nil_of_all _ Event.isConsole _ (sshSOS_mem env _ _)
      (fun e h => by cases e <;> simp_all [Event.isConsole, Event.isCreate])
  have hsosL : (sshSOS env dev.id (sshHost dev)).1.filter Event.isListen = [] :=
    filter_eq_nil_of_all _ Event.isConsole _ (sshSOS_mem env _ _)
      (fun e h => by cases e <;> simp_all [Event.isConsole, Event.isListen])
  refine ⟨htrace, ?_, ?_, ?_, ?_, ?_⟩
  · rw [htrace]
    simp [List.filter_append, hsosC, List.filter_cons, Event.isCreate]
  · rw [htrace]
    simp [List.filter_append, sshSOS_filter_delete, List.filter_cons, Event.isDelete]
  · rw [htrace]
    simp [List.filter_append, hsosL, List.filter_cons, Event.isListen]
  · show "dhcp".toList <:+: userData s.url s.cmdline s.name
    rw [userData_eq]
    refine ⟨"#!ipxe\n\n".toList, "\nset base-url ".toList ++ s.url
      ++ "\nset kernel-params ip=dhcp nomodeset ro serial console=ttyS1,115200 ".toList
      ++ s.cmdline ++ "\nkernel $\x7bbase-url\x7d/".toList ++ s.name
      ++ "-kernel $\x7bkernel-params\x7d\ninitrd $\x7bbase-url\x7d/".toList ++ s.name
      ++ "-initrd.img\nboot".toList, ?_⟩
    simp
  · show _ <:+: userData s.url s.cmdline s.name
    rw [userData_eq]
    refine ⟨"#!ipxe\n\ndhcp\nset base-url ".toList ++ s.url ++ "\n".toList,
      "\nkernel $\x7bbase-url\x7d/".toList ++ s.name
      ++ "-kernel $\x7bkernel-params\x7d\ninitrd $\x7bbase-url\x7d/".toList ++ s.name
      ++ "-initrd.img\nboot".toList, ?_⟩
    simp

/-- C4, amended, on the sample run. -/
theorem C4_create_then_delete_witness :
    resolve (demoEnv demoFlags) [] = .ok demoSettings ∧
      (runPacket (demoEnv demoFlags) []).1.filter Event.isCreate
        = [.create (createRequest demoSettings)] ∧
      (runPacket (demoEnv demoFlags) []).1.filter Event.isDelete
        = [.delete demoDevice.id] ∧
      (runPacket (demoEnv demoFlags) []).1.filter Event.isListen = [] :=
  ⟨rfl,
    (C4_create_then_delete (demoEnv demoFlags) [] demoSettings demoDevice rfl rfl rfl rfl
      rfl rfl rfl rfl rfl).2.1,
    (C4_create_then_delete (demoEnv demoFlags) [] demoSettings demoDevice rfl rfl rfl rfl
      rfl rfl rfl rfl rfl).2.2.1,
    (C4_create_then_delete (demoEnv demoFlags) [] demoSettings demoDevice rfl rfl rfl rfl
      rfl rfl rfl rfl rfl).2.2.2.1⟩

/-! ## `runPacket`: the boot script -/

theorem createdEvents_filter_head (s : Settings) :
    (createdEvents s).filter Event.isHead
      = [.head (kernelURL s.url s.name), .head (initrdURL s.url s.name)] := by
  have h : (serveEvents s).filter Event.isHead = [] :=
    filter_eq_nil_of_all _ Event.isListen _ (serveEvents_listen s)
      (fun e h => by cases e <;> simp_all [Event.isListen, Event.isHead])
  simp [createdEvents, List.filter_append, h, List.filter_cons, Event.isHead]

theorem afterCreate_filter_head (env : Env) (s : Settings) (dev : Device) :
    (afterCreate env s dev).1.filter Event.isHead = [] := by
  rw [List.filter_eq_nil_iff]
  intro e he
  rcases afterCreate_mem env s dev e he with h | h | h | h
  · cases e <;> simp_all [Event.isConsole, Event.isHead]
  · rw [h]; simp [Event.isHead]
  · rw [h]; simp [Event.isHead]
  · rw [h]; simp [Event.isHead]

/-- C8: the user data of the device-create request is exactly the iPXE script of the claim,
for the base URL `u`, the command-line content `c` and the image name `n` of the run; its
`kernel` and `initrd` lines name, under the reference to `base-url`, the two URLs that are
validated with `HEAD` under `u`; and these two are the only `HEAD` requests of a run that
creates a device. -/
theorem C8_userData_script :
    (∀ u c n : Str,
      userData u c n = "#!ipxe\n\ndhcp\nset base-url ".toList ++ u
        ++ "\nset kernel-params ip=dhcp nomodeset ro serial console=ttyS1,115200 ".toList ++ c
        ++ "\nkernel $\x7bbase-url\x7d/".toList ++ n
        ++ "-kernel $\x7bkernel-params\x7d\ninitrd $\x7bbase-url\x7d/".toList ++ n
        ++ "-initrd.img\nboot".toList) ∧
    (∀ u c n : Str,
      userData u c n = "#!ipxe\n\ndhcp\nset base-url ".toList ++ u
        ++ "\nset kernel-params ip=dhcp nomodeset ro serial console=ttyS1,115200 ".toList ++ c
        ++ "\nkernel ".toList ++ kernelURL "$\x7bbase-url\x7d".toList n
        ++ " $\x7bkernel-params\x7d\ninitrd ".toList ++ initrdURL "$\x7bbase-url\x7d".toList n
        ++ "\nboot".toList) ∧
    (∀ u n : Str, kernelURL u n = u ++ "/".toList ++ n ++ "-kernel".toList ∧
      initrdURL u n = u ++ "/".toList ++ n ++ "-initrd.img".toList) ∧
    (∀ (env : Env) (args : List Str) (s : Settings) (req : DeviceCreateRequest),
      resolve env args = .ok s → Event.create req ∈ (runPacket env args).1 →
      req.userData = userData s.url s.cmdline s.name ∧
      (runPacket env args).1.filter Event.isHead
        = [.head (kernelURL s.url s.name), .head (initrdURL s.url s.name)]) := by
  refine ⟨userData_eq, ?_, fun _ _ => ⟨rfl, rfl⟩, ?_⟩
  · intro u c n
    rw [userData_eq]
    simp only [kernelURL, initrdURL, List.append_assoc]
    rfl
  · intro env args s req hr hmem
    have hrun : runPacket env args = provision env s := by simp only [runPacket, hr]
    rw [hrun] at hmem ⊢
    have hreq : ∀ e ∈ createdEvents s, e = Event.create req → req = createRequest s := by
      intro e he heq
      subst heq
      rcases createdEvents_mem s _ he with h | h | h | h
      · simp [Event.isListen] at h
      · cases h
      · cases h
      · cases h
        rfl
    rcases provision_cases env s with ⟨_, hall⟩ | ⟨dev, _, _, _, _, heq⟩
    · have hk : headFails (env.httpHead (kernelURL s.url s.name)) = false := by
        by_contra hk
        obtain ⟨f, hf⟩ := provision_kernel_fail env s (by simpa using hk)
        rw [hf] at hmem
        simp only [List.mem_append, List.mem_singleton] at hmem
        rcases hmem with h | h
        · have := serveEvents_listen s _ h
          simp [Event.isListen] at this
        · cases h
      have hi : headFails (env.httpHead (initrdURL s.url s.name)) = false := by
        by_contra hi
        obtain ⟨f, hf⟩ := provision_initrd_fail env s hk (by simpa using hi)
        rw [hf] at hmem
        simp only [List.mem_append, List.mem_singleton] at hmem
        rcases hmem with (h | h) | h
        · have := serveEvents_listen s _ h
          simp [Event.isListen] at this
        · cases h
        · cases h
      refine ⟨by rw [hreq _ (hall _ hmem) rfl]; rfl, ?_⟩
      rw [provision_pass env s hk hi]
      cases env.devicesCreate (createRequest s) with
      | none => exact createdEvents_filter_head s
      | some dev =>
        by_cases hm : env.marshalIndent dev = false
        · simp only [hm, if_true]
          exact createdEvents_filter_head s
        · simp only [hm, Bool.true_eq_false, if_false]
          show List.filter Event.isHead (createdEvents s ++ (afterCreate env s dev).1) = _
          rw [List.filter_append, afterCreate_filter_head, List.append_nil]
          exact createdEvents_filter_head s
    · rw [heq] at hmem ⊢
      simp only [List.mem_append] at hmem
      constructor
      · rcases hmem with h | h
        · rw [hreq _ h rfl]
          rfl
        · rcases afterCreate_mem env s dev _ h with h1 | h1 | h1 | h1
          · simp [Event.isConsole] at h1
          · cases h1
          · cases h1
          · cases h1
      · rw [List.filter_append, afterCreate_filter_head, List.append_nil]
        exact createdEvents_filter_head s

/-- C8 on the sample run: the device-create request carries the script for
`http://boot.test/img`, `console=ttyS1` and `demo`. -/
theorem C8_userData_script_witness :
    resolve (demoEnv demoFlags) [] = .ok demoSettings ∧
      Event.create (createRequest demoSettings) ∈ (runPacket (demoEnv demoFlags) []).1 ∧
      (createRequest demoSettings).userData
        = userData "http://boot.test/img".toList "console=ttyS1".toList "demo".toList ∧
      (runPacket (demoEnv demoFlags) []).1.filter Event.isHead
        = [.head "http://boot.test/img/demo-kernel".toList,
            .head "http://boot.test/img/demo-initrd.img".toList] := by
  have hmem : Event.create (createRequest demoSettings)
      ∈ (runPacket (demoEnv demoFlags) []).1 := by
    rw [runPacket_sample]
    simp
  exact ⟨rfl, hmem,
    C8_userData_script.2.2.2 (demoEnv demoFlags) [] demoSettings _ rfl hmem⟩

theorem pathClean_sample1 : pathClean "/../../etc/passwd".toList = "/etc/passwd".toList := by decide

theorem pathClean_sample2 : pathClean "a/../../b/./c//d/..".toList = "../b/c".toList := by decide

theorem pathClean_sample3 : pathClean "".toList = ".".toList := by decide

theorem pathClean_sample4 : pathClean "/..".toList = "/".toList := by decide

theorem pathClean_sample5 : pathClean "abc/def/../../..".toList = "..".toList := by decide

theorem pathClean_sample6 : pathClean "/abc/def/../x".toList = "/abc/x".toList := by decide

theorem pathClean_sample7 : filepathJoin "/home/u".toList (pathClean "//demo-kernel".toList)
    = "/home/u/demo-kernel".toList := by decide

end RunPacket
